import Mathlib

/-!
Verification development for the blink-tree-go repository.

The Go sources are shallowly embedded: a page's data area (`Page.Data` in
`page.go`) is a total byte memory `Nat → Nat` (writes store modulo 256 as Go
`byte` stores do); `uint32` header fields are `Nat` with wrap-around made
explicit at the subtractions where Go could underflow; Go panics are `Option`
failures; the unbounded Go loops take an explicit fuel argument; the buffer
pool and on-disk file collapse to one map from page numbers to pages, which is
exact for the sequential executions the claims quantify over.
-/

namespace BLink

/-- Byte memory of a page data area, as written by `page.go`.  Offsets beyond
the page's physical size are never read on the traced paths, so the memory is
total. -/
def Mem : Type := Nat → Nat

/-- Write one byte (Go assignment into a `[]byte`). -/
def wr8 (d : Mem) (i v : Nat) : Mem := fun j => if j = i then v % 256 else d j

/-- Write a byte slice at an offset (Go `copy(p.Data[off:], l)`). -/
def wrBytes (d : Mem) (off : Nat) (l : List Nat) : Mem :=
  fun j => if off ≤ j ∧ j < off + l.length then (l.getD (j - off) 0) % 256 else d j

/-- Read `n` bytes starting at `off`. -/
def rdBytes (d : Mem) (off n : Nat) : List Nat :=
  (List.range n).map fun i => d (off + i)

/-- The four little-endian bytes of `binary.LittleEndian.PutUint32`. -/
def le32 (n : Nat) : List Nat := [n % 256, n / 2 ^ 8 % 256, n / 2 ^ 16 % 256, n / 2 ^ 24 % 256]

/-- `binary.LittleEndian.Uint32` over the byte memory. -/
def rdLE32 (d : Mem) (off : Nat) : Nat :=
  d off + 2 ^ 8 * d (off + 1) + 2 ^ 16 * d (off + 2) + 2 ^ 24 * d (off + 3)

/-- `bytes.Compare` of `page.go`'s `KeyCmp`: lexicographic byte-wise
comparison, a strict prefix comparing smaller. -/
def KeyCmp : List Nat → List Nat → Int
  | [], [] => 0
  | [], _ :: _ => -1
  | _ :: _, [] => 1
  | a :: as, b :: bs => if a < b then -1 else if b < a then 1 else KeyCmp as bs

/-- Slot type constants of `page.go` (`Unique`, `Librarian`, `Duplicate`). -/
def Unique : Nat := 0
def Librarian : Nat := 1
def Duplicate : Nat := 2

def MaxKey : Nat := 255
def PageHeaderSize : Nat := 26
def SlotSize : Nat := 6
def BtId : Nat := 6
def RootPage : Nat := 1
def MinLvl : Nat := 2

/-- A decoded page: the `PageHeader` fields of `page.go` plus the byte data
area.  `Right` is the 48-bit page number held by the `[6]uint8` field; `PutID`
followed by `GetID` is the identity below `2 ^ 48`, and every page number in
scope is far below that bound, so the field is carried as the number itself. -/
structure Page where
  Cnt : Nat
  Act : Nat
  Min : Nat
  Garbage : Nat
  Bits : Nat
  Free : Bool
  Lvl : Nat
  Kill : Bool
  Right : Nat
  Data : Mem

/-- Byte offset of a slot in the data area (`SlotSize * (i - 1)`); slot
indices are 1-based everywhere, matching the source. -/
def slotOff (i : Nat) : Nat := 6 * (i - 1)

def Page.ClearSlot (p : Page) (slot : Nat) : Page :=
  { p with Data := wrBytes p.Data (slotOff slot) [0, 0, 0, 0, 0, 0] }

/-- `SetKeyOffset` panics when the offset exceeds 32767; the panic is the
`none` outcome. -/
def Page.SetKeyOffset (p : Page) (slot off : Nat) : Option Page :=
  if off > 32767 then none
  else some { p with Data := wrBytes p.Data (slotOff slot) (le32 off) }

def Page.KeyOffset (p : Page) (slot : Nat) : Nat := rdLE32 p.Data (slotOff slot)

def Page.SetTyp (p : Page) (slot typ : Nat) : Page :=
  { p with Data := wr8 p.Data (slotOff slot + 4) typ }

def Page.Typ (p : Page) (slot : Nat) : Nat := p.Data (slotOff slot + 4)

def Page.SetDead (p : Page) (slot : Nat) (b : Bool) : Page :=
  { p with Data := wr8 p.Data (slotOff slot + 5) (if b then 1 else 0) }

def Page.Dead (p : Page) (slot : Nat) : Bool := p.Data (slotOff slot + 5) == 1

def Page.SetKey (p : Page) (bytes : List Nat) (slot : Nat) : Page :=
  { p with Data := wrBytes p.Data (p.KeyOffset slot) (bytes.length :: bytes) }

def Page.Key (p : Page) (slot : Nat) : List Nat :=
  rdBytes p.Data (p.KeyOffset slot + 1) (p.Data (p.KeyOffset slot))

def Page.ValueOffset (p : Page) (slot : Nat) : Nat :=
  p.KeyOffset slot + 1 + p.Data (p.KeyOffset slot)

def Page.SetValue (p : Page) (bytes : List Nat) (slot : Nat) : Page :=
  { p with Data := wrBytes p.Data (p.ValueOffset slot) (bytes.length :: bytes) }

def Page.Value (p : Page) (slot : Nat) : List Nat :=
  rdBytes p.Data (p.ValueOffset slot + 1) (p.Data (p.ValueOffset slot))

/-- The six big-endian bytes `PutID` stores for a page number. -/
def putIDBytes (id : Nat) : List Nat :=
  [id / 2 ^ 40 % 256, id / 2 ^ 32 % 256, id / 2 ^ 24 % 256,
   id / 2 ^ 16 % 256, id / 2 ^ 8 % 256, id % 256]

/-- `GetID` over six in-memory bytes. -/
def beId (l : List Nat) : Nat := l.foldl (fun a b => 2 ^ 8 * a + b % 256) 0

/-- `GetIDFromValue`: zero when the value is shorter than `BtId`. -/
def GetIDFromValue (v : List Nat) : Nat := if v.length < 6 then 0 else beId (v.take 6)

/-- The binary-search loop of `FindSlot`, with the iteration count bounded by
a fuel argument; `higher - low` strictly decreases each pass, so the initial
difference is always enough fuel and fuel exhaustion is unreachable. -/
def fsGo (kf : Nat → List Nat) (key : List Nat) :
    Nat → Nat → Nat → Nat → Nat
  | 0, low, higher, good =>
    if 0 < higher - low then 0 else if 0 < good then higher else 0
  | fuel + 1, low, higher, good =>
    if 0 < higher - low then
      if KeyCmp (kf (low + (higher - low) / 2)) key < 0 then
        fsGo kf key fuel (low + (higher - low) / 2 + 1) higher good
      else fsGo kf key fuel low (low + (higher - low) / 2) (good + 1)
    else if 0 < good then higher else 0

/-- `FindSlot` of `page.go`: binary search over slots `[1, Cnt]`; the fence
slot participates only when `Right != 0`, otherwise `good` starts positive. -/
def Page.FindSlot (p : Page) (key : List Nat) : Nat :=
  fsGo (fun s => p.Key s) key
    ((if 0 < p.Right then p.Cnt + 1 else p.Cnt) - 1) 1
    (if 0 < p.Right then p.Cnt + 1 else p.Cnt)
    (if 0 < p.Right then 0 else 1)

/-! ### Order lemmas for byte-wise comparison -/

theorem KeyCmp_cases (a b : List Nat) : KeyCmp a b = -1 ∨ KeyCmp a b = 0 ∨ KeyCmp a b = 1 := by
  induction a generalizing b with
  | nil => cases b <;> simp [KeyCmp]
  | cons x xs ih =>
    cases b with
    | nil => simp [KeyCmp]
    | cons y ys =>
      simp only [KeyCmp]
      by_cases hxy : x < y
      · simp [hxy]
      · by_cases hyx : y < x
        · simp [hxy, hyx]
        · simpa [hxy, hyx] using ih ys

theorem KeyCmp_eq_zero_iff (a b : List Nat) : KeyCmp a b = 0 ↔ a = b := by
  induction a generalizing b with
  | nil => cases b <;> simp [KeyCmp]
  | cons x xs ih =>
    cases b with
    | nil => simp [KeyCmp]
    | cons y ys =>
      simp only [KeyCmp]
      by_cases hxy : x < y
      · simp [hxy]; omega
      · by_cases hyx : y < x
        · simp [hxy, hyx]; omega
        · have hx : x = y := by omega
          simp [hxy, hyx, hx, ih ys]

theorem KeyCmp_refl (a : List Nat) : KeyCmp a a = 0 := (KeyCmp_eq_zero_iff a a).mpr rfl

theorem KeyCmp_le_trans {a b c : List Nat} (h1 : KeyCmp a b ≤ 0) (h2 : KeyCmp b c ≤ 0) :
    KeyCmp a c ≤ 0 := by
  induction a generalizing b c with
  | nil => cases c <;> simp [KeyCmp]
  | cons x xs ih =>
    cases b with
    | nil => simp [KeyCmp] at h1
    | cons y ys =>
      cases c with
      | nil => simp [KeyCmp] at h2
      | cons z zs =>
        simp only [KeyCmp] at h1 h2 ⊢
        by_cases hxy : x < y
        · have hyz : ¬ z < y := by
            intro hzy
            simp [Nat.lt_asymm hzy, hzy] at h2
          by_cases hxz : x < z
          · simp [hxz]
          · have : ¬ z < x := by omega
            simp [hxz, this]
            have hx : x = z := by omega
            omega
        · by_cases hyx : y < x
          · simp [hxy, hyx] at h1
          · have hx : x = y := by omega
            subst hx
            simp [hxy] at h1
            by_cases hxz : x < z
            · simp [hxz]
            · by_cases hzx : z < x
              · simp [Nat.lt_asymm hzx, hzx] at h2
              · simp [hxz, hzx] at h2 ⊢
                exact ih h1 h2

theorem KeyCmp_swap (a b : List Nat) : KeyCmp b a = - KeyCmp a b := by
  induction a generalizing b with
  | nil => cases b <;> simp [KeyCmp]
  | cons x xs ih =>
    cases b with
    | nil => simp [KeyCmp]
    | cons y ys =>
      simp only [KeyCmp]
      by_cases hxy : x < y
      · simp [hxy, Nat.lt_asymm hxy]
      · by_cases hyx : y < x
        · simp [hxy, hyx]
        · simp [hxy, hyx, ih]

theorem KeyCmp_le_lt_trans {a b c : List Nat} (h1 : KeyCmp a b ≤ 0) (h2 : KeyCmp b c < 0) :
    KeyCmp a c < 0 := by
  by_contra h
  push_neg at h
  have hca : KeyCmp c a ≤ 0 := by rw [KeyCmp_swap]; omega
  have hcb : KeyCmp c b ≤ 0 := KeyCmp_le_trans hca h1
  have hbc := KeyCmp_swap b c
  omega

/-- Pairwise sortedness of adjacent slots extends to any pair of slots. -/
theorem key_mono (p : Page)
    (hsort : ∀ i, i < p.Cnt → 1 ≤ i → KeyCmp (p.Key i) (p.Key (i + 1)) ≤ 0)
    {i j : Nat} (h1 : 1 ≤ i) (hij : i ≤ j) :
    j ≤ p.Cnt → KeyCmp (p.Key i) (p.Key j) ≤ 0 := by
  induction j, hij using Nat.le_induction with
  | base => intro _; simp [KeyCmp_refl]
  | succ m hm ih =>
    intro hj
    exact KeyCmp_le_trans (ih (by omega)) (hsort m (by omega) (by omega))

/-- A slot satisfies the `FindSlot` search when its key is at least the
search key; on a rightmost page the fence slot counts as satisfying without
being compared. -/
def FindSlotSat (p : Page) (key : List Nat) (i : Nat) : Prop :=
  (p.Right = 0 ∧ i = p.Cnt) ∨ 0 ≤ KeyCmp (p.Key i) key

instance (p : Page) (key : List Nat) (i : Nat) : Decidable (FindSlotSat p key i) := by
  unfold FindSlotSat; infer_instance

/-- Invariant-based correctness of the `FindSlot` binary-search loop over a
page whose slots `[1, Cnt]` carry sorted keys. -/
theorem fsGo_spec (p : Page) (key : List Nat)
    (hsort : ∀ i, i < p.Cnt → 1 ≤ i → KeyCmp (p.Key i) (p.Key (i + 1)) ≤ 0) :
    ∀ fuel low higher good,
      higher - low ≤ fuel → 1 ≤ low → low ≤ higher →
      higher ≤ (if 0 < p.Right then p.Cnt + 1 else p.Cnt) →
      (∀ j, j < low → 1 ≤ j → ¬ FindSlotSat p key j) →
      (0 < good → 1 ≤ higher ∧ higher ≤ p.Cnt ∧ FindSlotSat p key higher) →
      (good = 0 → 0 < p.Right ∧ higher = p.Cnt + 1) →
      (fsGo (fun s => p.Key s) key fuel low higher good = 0 ∧ 0 < p.Right ∧
        ∀ j, j < p.Cnt + 1 → 1 ≤ j → ¬ FindSlotSat p key j) ∨
      (1 ≤ fsGo (fun s => p.Key s) key fuel low higher good ∧
        fsGo (fun s => p.Key s) key fuel low higher good ≤ p.Cnt ∧
        FindSlotSat p key (fsGo (fun s => p.Key s) key fuel low higher good) ∧
        ∀ j, j < fsGo (fun s => p.Key s) key fuel low higher good → 1 ≤ j →
          ¬ FindSlotSat p key j) := by
  intro fuel
  induction fuel with
  | zero =>
    intro low higher good hfuel h1 hlh hhi hlow hgood hgood0
    have hd : ¬ 0 < higher - low := by omega
    have hle : low = higher := by omega
    simp only [fsGo, if_neg hd]
    by_cases hg : 0 < good
    · right
      obtain ⟨hg1, hg2, hg3⟩ := hgood hg
      rw [if_pos hg]
      exact ⟨hg1, hg2, hg3, fun j hj hj1 => hlow j (by omega) hj1⟩
    · left
      obtain ⟨hr, hh⟩ := hgood0 (by omega)
      rw [if_neg hg]
      exact ⟨rfl, hr, fun j hj hj1 => hlow j (by omega) hj1⟩
  | succ n ih =>
    intro low higher good hfuel h1 hlh hhi hlow hgood hgood0
    by_cases hd : 0 < higher - low
    · have hs1 : low ≤ low + (higher - low) / 2 := Nat.le_add_right _ _
      have hdiv : (higher - low) / 2 < higher - low := Nat.div_lt_self hd one_lt_two
      have hs2 : low + (higher - low) / 2 < higher := by omega
      have hsC : low + (higher - low) / 2 ≤ p.Cnt := by
        by_cases hr : 0 < p.Right
        · rw [if_pos hr] at hhi; omega
        · rw [if_neg hr] at hhi; omega
      by_cases hcmp : KeyCmp (p.Key (low + (higher - low) / 2)) key < 0
      · have hres :
            fsGo (fun s => p.Key s) key (n + 1) low higher good =
            fsGo (fun s => p.Key s) key n (low + (higher - low) / 2 + 1) higher good := by
          simp only [fsGo, if_pos hd, if_pos hcmp]
        rw [hres]
        apply ih _ _ _ (by omega) (by omega) (by omega) hhi _ hgood hgood0
        intro j hj hj1
        rcases Nat.lt_or_ge j low with hjl | hjl
        · exact hlow j hjl hj1
        · -- low ≤ j ≤ slot: the compared key dominates, so j cannot satisfy
          intro hsat
          rcases hsat with ⟨hr0, hjc⟩ | hge
          · -- fence case needs Right = 0, but then higher ≤ Cnt and j < Cnt
            have : higher ≤ p.Cnt := by rw [if_neg (by omega : ¬ 0 < p.Right)] at hhi; omega
            omega
          · have hmono := key_mono p hsort hj1 (by omega : j ≤ low + (higher - low) / 2) hsC
            have := KeyCmp_le_lt_trans hmono hcmp
            omega
      · have hres :
            fsGo (fun s => p.Key s) key (n + 1) low higher good =
            fsGo (fun s => p.Key s) key n low (low + (higher - low) / 2) (good + 1) := by
          simp only [fsGo, if_pos hd, if_neg hcmp]
        rw [hres]
        apply ih _ _ _ (by omega) h1 (by omega) _ hlow _ (by omega)
        · by_cases hr : 0 < p.Right
          · rw [if_pos hr]; omega
          · rw [if_neg hr]; omega
        · intro _
          exact ⟨by omega, hsC, Or.inr (by omega)⟩
    · have hle : low = higher := by omega
      simp only [fsGo, if_neg hd]
      by_cases hg : 0 < good
      · right
        obtain ⟨hg1, hg2, hg3⟩ := hgood hg
        rw [if_pos hg]
        exact ⟨hg1, hg2, hg3, fun j hj hj1 => hlow j (by omega) hj1⟩
      · left
        obtain ⟨hr, hh⟩ := hgood0 (by omega)
        rw [if_neg hg]
        exact ⟨rfl, hr, fun j hj hj1 => hlow j (by omega) hj1⟩

/-- Byte memory backed by a concrete list (for concrete test pages). -/
def listMem (l : List Nat) : Mem := fun i => l.getD i 0

/-- The claim's contract for `FindSlot`, exactly as stated: the result is the
smallest slot in `[1, Cnt]` satisfying the search (fence at `Cnt` treated as
satisfying when `Right = 0`), or 0 when no slot satisfies. -/
def FindSlotClaimAt (p : Page) (key : List Nat) : Prop :=
  (1 ≤ p.FindSlot key ∧ p.FindSlot key ≤ p.Cnt ∧ FindSlotSat p key (p.FindSlot key) ∧
    ∀ j, j < p.FindSlot key → 1 ≤ j → ¬ FindSlotSat p key j) ∨
  (p.FindSlot key = 0 ∧ ∀ j, j < p.Cnt + 1 → 1 ≤ j → ¬ FindSlotSat p key j)

instance (p : Page) (key : List Nat) : Decidable (FindSlotClaimAt p key) := by
  unfold FindSlotClaimAt; infer_instance

/-- An unsorted page with `Cnt = 3`, `Right ≠ 0` and keys `[2], [0], [1]` at
slots 1, 2, 3: binary search is not a linear scan, so the claimed contract
fails without the sortedness invariant. -/
def cexPage : Page :=
  { Cnt := 3, Act := 3, Min := 100, Garbage := 0, Bits := 15, Free := false,
    Lvl := 0, Kill := false, Right := 7,
    Data := listMem
      ([100, 0, 0, 0, 0, 0, 102, 0, 0, 0, 0, 0, 104, 0, 0, 0, 0, 0] ++
        List.replicate 82 0 ++ [1, 2, 1, 0, 1, 1]) }

/-- A sorted page with the same layout and keys `[0], [1], [2]`. -/
def sortedPage : Page :=
  { Cnt := 3, Act := 3, Min := 100, Garbage := 0, Bits := 15, Free := false,
    Lvl := 0, Kill := false, Right := 7,
    Data := listMem
      ([100, 0, 0, 0, 0, 0, 102, 0, 0, 0, 0, 0, 104, 0, 0, 0, 0, 0] ++
        List.replicate 82 0 ++ [1, 0, 1, 1, 1, 2]) }

/-- C4 counterexample: on an unsorted page the claimed "smallest satisfying
slot" contract fails — searching `[1]` on `cexPage` returns slot 3 although
slot 1 already satisfies the comparison.  The claim quantifies over every page
with `Cnt ≥ 1` and omits the sortedness invariant, so it is false as stated. -/
theorem FindSlot_contract_counterexample :
    1 ≤ cexPage.Cnt ∧ ¬ FindSlotClaimAt cexPage [1] := by decide

/-- C4 (amended): for every page with `Cnt ≥ 1` whose slot keys `[1, Cnt]` are
sorted byte-wise, `FindSlot` returns the smallest slot whose key is `≥` the
search key — the fence slot at `Cnt` participating only when `Right ≠ 0` and
counting as already satisfied when `Right = 0` — and returns 0 exactly when no
slot satisfies, which can only happen on a page with `Right ≠ 0`. -/
theorem FindSlot_sorted_contract (p : Page) (key : List Nat)
    (hcnt : 1 ≤ p.Cnt)
    (hsort : ∀ i, i < p.Cnt → 1 ≤ i → KeyCmp (p.Key i) (p.Key (i + 1)) ≤ 0) :
    (p.FindSlot key = 0 ∧ 0 < p.Right ∧
      ∀ j, j < p.Cnt + 1 → 1 ≤ j → ¬ FindSlotSat p key j) ∨
    (1 ≤ p.FindSlot key ∧ p.FindSlot key ≤ p.Cnt ∧ FindSlotSat p key (p.FindSlot key) ∧
      ∀ j, j < p.FindSlot key → 1 ≤ j → ¬ FindSlotSat p key j) := by
  unfold Page.FindSlot
  by_cases hr : 0 < p.Right
  · simp only [if_pos hr]
    exact fsGo_spec p key hsort (p.Cnt + 1 - 1) 1 (p.Cnt + 1) 0 (by omega) le_rfl (by omega)
      (by rw [if_pos hr]) (fun j hj hj1 => by omega)
      (fun h => absurd h (lt_irrefl 0)) (fun _ => ⟨hr, rfl⟩)
  · simp only [if_neg hr]
    exact fsGo_spec p key hsort (p.Cnt - 1) 1 p.Cnt 1 (by omega) le_rfl hcnt
      (by rw [if_neg hr]) (fun j hj hj1 => by omega)
      (fun _ => ⟨hcnt, le_rfl, Or.inl ⟨by omega, rfl⟩⟩) (fun h => by omega)

/-- Witness for the amended C4 contract at a concrete sorted page. -/
theorem FindSlot_sorted_contract_witness :
    (1 ≤ sortedPage.Cnt ∧
      ∀ i, i < sortedPage.Cnt → 1 ≤ i →
        KeyCmp (sortedPage.Key i) (sortedPage.Key (i + 1)) ≤ 0) ∧
    ((sortedPage.FindSlot [1] = 0 ∧ 0 < sortedPage.Right ∧
        ∀ j, j < sortedPage.Cnt + 1 → 1 ≤ j → ¬ FindSlotSat sortedPage [1] j) ∨
      (1 ≤ sortedPage.FindSlot [1] ∧ sortedPage.FindSlot [1] ≤ sortedPage.Cnt ∧
        FindSlotSat sortedPage [1] (sortedPage.FindSlot [1]) ∧
        ∀ j, j < sortedPage.FindSlot [1] → 1 ≤ j → ¬ FindSlotSat sortedPage [1] j)) :=
  ⟨⟨by decide, by decide⟩, FindSlot_sorted_contract sortedPage [1] (by decide) (by decide)⟩

/-! ### Whole-system sequential model

`blterr.go` error codes, and the state shared by `bufmgr.go` and `bltree.go`:
the buffer pool and the on-disk file collapse into one map from page numbers
to pages (every latch, pin and dirty bit is a no-op in a sequential
execution), page zero's allocator fields become plain numbers, and the
`BLTree`/`BufMgr` error and found flags are carried explicitly. -/

inductive BLTErr where
  | Ok | Struct | Overflow | Lock | Map | Read | Write | Atomic
deriving DecidableEq

/-- Sequential system state: `pages` merges the buffer pool with the file
(`none` = the page was never written, so `readPage` fails); `allocRight` and
`chain` are page zero's allocator fields; `dups` is the duplicate sequence;
`mgrErr`/`treeErr`/`found` are `BufMgr.err`, `BLTree.err` and `BLTree.found`. -/
structure St where
  pds : Nat
  bits : Nat
  pages : Nat → Option Page
  allocRight : Nat
  chain : Nat
  dups : Nat
  mgrErr : BLTErr
  treeErr : BLTErr
  found : Bool

def St.upd (s : St) (pno : Nat) (p : Page) : St :=
  { s with pages := fun i => if i = pno then some p else s.pages i }

/-- `uint32` subtraction with explicit wrap-around (both arguments stay far
below `2 ^ 32` on every path of the model). -/
def sub32 (a b : Nat) : Nat := (a + 2 ^ 32 - b % 2 ^ 32) % 2 ^ 32

/-- `NewPage(pageDataSize)` of `page.go`: zero header, zero data. -/
def emptyPage : Page :=
  { Cnt := 0, Act := 0, Min := 0, Garbage := 0, Bits := 0, Free := false,
    Lvl := 0, Kill := false, Right := 0, Data := fun _ => 0 }

/-- The dead-slot skip loop inside `LoadPage` (`none` = slide right). -/
def skipDead (p : Page) : Nat → Nat → Option Nat
  | 0, _ => none
  | fuel + 1, slot =>
    if p.Dead slot then
      if slot < p.Cnt then skipDead p fuel (slot + 1) else none
    else some slot

/-- Outcome of one `LoadPage` drill iteration. -/
inductive LPStep where
  | done : Nat → Nat → LPStep
  | next : Nat → Nat → LPStep

/-- The body of one `LoadPage` iteration after the drill level has been
re-learnt: handle `Kill`, find the slot, descend or slide right. -/
def loadPageBody (key : List Nat) (lvl : Nat) (pageNo : Nat) (page : Page)
    (drill : Nat) : LPStep :=
  if page.Kill then .next page.Right drill
  else
    if 0 < page.FindSlot key then
      if drill = lvl then .done pageNo (page.FindSlot key)
      else
        match skipDead page (page.Cnt + 1) (page.FindSlot key) with
        | none => .next page.Right drill
        | some slot =>
          .next (GetIDFromValue (page.Value slot)) (drill - 1)
    else .next page.Right drill

/-- The `LoadPage` drill loop of `bufmgr.go`.  `lockRead` tells whether the
requested lock mode is `LockRead` (it decides the re-lock retry on the root).
Returns the page number and slot on success, or `none` together with the
error code `LoadPage` records in `BufMgr.err`. -/
def loadPageGo (s : St) (key : List Nat) (lvl : Nat) (lockRead : Bool) :
    Nat → Nat → Nat → Option (Nat × Nat) × BLTErr
  | 0, _, _ => (none, BLTErr.Struct)
  | fuel + 1, pageNo, drill =>
    if pageNo = 0 then (none, BLTErr.Struct)
    else
      match s.pages pageNo with
      | none => (none, BLTErr.Read)
      | some page =>
        if page.Free then (none, BLTErr.Struct)
        else if page.Lvl ≠ drill ∧ pageNo ≠ RootPage then (none, BLTErr.Struct)
        else if page.Lvl ≠ drill ∧ ¬ lockRead ∧ page.Lvl = lvl then
          loadPageGo s key lvl lockRead fuel pageNo page.Lvl
        else
          match loadPageBody key lvl pageNo page (if page.Lvl ≠ drill then page.Lvl else drill) with
          | .done pno slot => (some (pno, slot), BLTErr.Ok)
          | .next pno d => loadPageGo s key lvl lockRead fuel pno d

/-- `LoadPage` entry point: start at the root with `drill = 0xff`. -/
def LoadPage (s : St) (key : List Nat) (lvl : Nat) (lockRead : Bool) (fuel : Nat) :
    Option (Nat × Nat) × BLTErr :=
  loadPageGo s key lvl lockRead fuel RootPage 255

/-- `BufMgr.NewPage`: reuse the head of the free chain, else bump the
allocator; returns the page number of the installed page. -/
def NewPageMgr (s : St) (contents : Page) : St × Option Nat :=
  if 0 < s.chain then
    match s.pages s.chain with
    | none => ({ s with mgrErr := BLTErr.Struct }, none)
    | some head =>
      ({ (s.upd s.chain contents) with chain := head.Right }, some s.chain)
  else
    ({ (s.upd s.allocRight contents) with allocRight := s.allocRight + 1 },
      some s.allocRight)

/-- `BufMgr.FreePage`: prepend the page to the free chain and mark it free. -/
def FreePageMgr (s : St) (pageNo : Nat) : St :=
  match s.pages pageNo with
  | none => s
  | some p =>
    { (s.upd pageNo { p with Right := s.chain, Free := true }) with chain := pageNo }

/-! ### Page-mutating helpers of `bltree.go`

`none` throughout is a Go panic (the `SetKeyOffset` offset guard), or fuel
exhaustion, which never occurs at the fuel values the theorems use. -/

/-- The first-empty-slot scan of `insertSlot`: first dead slot in
`[slot, Cnt)`, else `Cnt`. -/
def findFirstDead (p : Page) : Nat → Nat → Nat
  | 0, idx => idx
  | fuel + 1, idx =>
    if idx < p.Cnt then
      if p.Dead idx then idx else findFirstDead p fuel (idx + 1)
    else idx

/-- The slot-shifting loop of `insertSlot`: move slots up by `lib` places,
walking `idx` down to `stop` exclusive. -/
def shiftSlots (lib : Nat) : Nat → Nat → Nat → Page → Option Page
  | 0, _, _, _ => none
  | fuel + 1, idx, stop, p =>
    if stop < idx then
      let p1 := p.SetDead idx (p.Dead (idx - lib))
      let p2 := p1.SetTyp idx (p1.Typ (idx - lib))
      match p2.SetKeyOffset idx (p2.KeyOffset (idx - lib)) with
      | none => none
      | some p3 => shiftSlots lib fuel (idx - 1) stop p3
    else some p

/-- `insertSlot` of `bltree.go`: write value then key at the heap top, find a
dead slot to reuse (or extend `Cnt` by two), shift slots, fill in the
librarian and the new slot. -/
def insertSlotF (p0 : Page) (slot0 : Nat) (key value : List Nat) (typ : Nat) :
    Option Page :=
  let slot := if 1 < slot0 ∧ p0.Typ (slot0 - 1) = Librarian then slot0 - 1 else slot0
  let p1 := { p0 with Min := sub32 p0.Min (BtId + 1) }
  let p2 := { p1 with Data := wrBytes p1.Data p1.Min (value.length :: value) }
  let p3 := { p2 with Min := sub32 p2.Min (key.length + 1) }
  let p4 := { p3 with Data := wrBytes p3.Data p3.Min (key.length :: key) }
  let idx := findFirstDead p4 (p4.Cnt + 1) slot
  let lib : Nat := if idx = p4.Cnt then 2 else 1
  let idx2 := if idx = p4.Cnt then idx + 2 else idx
  let p5 := if idx = p4.Cnt then { p4 with Cnt := p4.Cnt + 2 } else p4
  let p6 := { p5 with Act := p5.Act + 1 }
  match shiftSlots lib (idx2 + 1) idx2 (slot + lib - 1) p6 with
  | none => none
  | some p7 =>
    if 1 < lib then
      match p7.SetKeyOffset slot p7.Min with
      | none => none
      | some p8 =>
        let p9 := (p8.SetTyp slot Librarian).SetDead slot true
        match p9.SetKeyOffset (slot + 1) p9.Min with
        | none => none
        | some pa => some ((pa.SetTyp (slot + 1) typ).SetDead (slot + 1) false)
    else
      match p7.SetKeyOffset slot p7.Min with
      | none => none
      | some p8 => some ((p8.SetTyp slot typ).SetDead slot false)

/-- The compaction loop of `cleanPage`: rebuild the page from a frame
snapshot, dropping dead slots (except the fence), interleaving librarian
slots, and tracking the adjusted requested slot.  State: `cnt, idx, nxt,
newSlot, page`. -/
def cleanPageLoop (frame : Page) (slotArg maxCnt : Nat) :
    Nat → Nat → Nat → Nat → Nat → Page → Option (Page × Nat × Nat × Nat)
  | 0, _, _, _, _, _ => none
  | fuel + 1, cnt, idx, nxt, newSlot, page =>
    if cnt < maxCnt then
      let cnt' := cnt + 1
      let newSlot' := if cnt' = slotArg then (if idx = 0 then 1 else idx + 2) else newSlot
      if cnt' < maxCnt ∧ frame.Dead cnt' then
        cleanPageLoop frame slotArg maxCnt fuel cnt' idx nxt newSlot' page
      else
        let val := frame.Value cnt'
        let nxt1 := sub32 nxt (val.length + 1)
        let page1 := { page with Data := wrBytes page.Data nxt1 (val.length :: val) }
        let key := frame.Key cnt'
        let nxt2 := sub32 nxt1 (key.length + 1)
        let page2 := { page1 with Data := wrBytes page1.Data nxt2 (key.length :: key) }
        if 0 < idx then
          match page2.SetKeyOffset (idx + 1) nxt2 with
          | none => none
          | some page3 =>
            let page4 := ((page3.SetTyp (idx + 1) Librarian).SetDead (idx + 1) true)
            match page4.SetKeyOffset (idx + 2) nxt2 with
            | none => none
            | some page5 =>
              let page6 := ((page5.SetTyp (idx + 2) (frame.Typ cnt')).SetDead (idx + 2)
                (frame.Dead cnt'))
              let page7 :=
                if ¬ page6.Dead (idx + 2) then { page6 with Act := page6.Act + 1 } else page6
              cleanPageLoop frame slotArg maxCnt fuel cnt' (idx + 2) nxt2 newSlot' page7
        else
          match page2.SetKeyOffset 1 nxt2 with
          | none => none
          | some page3 =>
            let page4 := ((page3.SetTyp 1 (frame.Typ cnt')).SetDead 1 (frame.Dead cnt'))
            let page5 := if ¬ page4.Dead 1 then { page4 with Act := page4.Act + 1 } else page4
            cleanPageLoop frame slotArg maxCnt fuel cnt' 1 nxt2 newSlot' page5
    else some (page, idx, nxt, newSlot)

/-- `cleanPage` of `bltree.go`: keep the slot when the page already fits,
force a split (0) when garbage is scarce, else compact and re-test. -/
def cleanPageF (pds : Nat) (p : Page) (keyLen slot valLen : Nat) : Option (Nat × Page) :=
  if (p.Cnt + 2) * SlotSize + PageHeaderSize + keyLen + 1 + valLen + 1 ≤ p.Min then
    some (slot, p)
  else if p.Garbage < pds / 5 then some (0, p)
  else
    let p0 := { p with Data := fun _ => 0, Garbage := 0, Act := 0 }
    match cleanPageLoop p slot p.Cnt (p.Cnt + 1) 0 0 pds p.Cnt p0 with
    | none => none
    | some (page, idx, nxt, newSlot) =>
      let page' := { page with Min := nxt, Cnt := idx }
      if (idx + 2) * SlotSize + PageHeaderSize + keyLen + 1 + valLen + 1 ≤ page'.Min then
        some (newSlot, page')
      else some (0, page')

/-- The upper-half copy loop of `splitPage` (source page to fresh frame);
dead slots are dropped except a leaf's fence. -/
def splitUpperLoop (src : Page) (maxCnt : Nat) :
    Nat → Nat → Nat → Nat → Page → Option (Page × Nat × Nat)
  | 0, _, _, _, _ => none
  | fuel + 1, cnt, idx, nxt, frame =>
    if cnt < maxCnt then
      let cnt' := cnt + 1
      if (cnt' < maxCnt ∨ 0 < src.Lvl) ∧ src.Dead cnt' then
        splitUpperLoop src maxCnt fuel cnt' idx nxt frame
      else
        let val := src.Value cnt'
        let nxt1 := sub32 nxt (val.length + 1)
        let frame1 := { frame with Data := wrBytes frame.Data nxt1 (val.length :: val) }
        let key := src.Key cnt'
        let nxt2 := sub32 nxt1 (key.length + 1)
        let frame2 := { frame1 with Data := wrBytes frame1.Data nxt2 (key.length :: key) }
        if 0 < idx then
          match frame2.SetKeyOffset (idx + 1) nxt2 with
          | none => none
          | some frame3 =>
            let frame4 := ((frame3.SetTyp (idx + 1) Librarian).SetDead (idx + 1) true)
            match frame4.SetKeyOffset (idx + 2) nxt2 with
            | none => none
            | some frame5 =>
              let frame6 := ((frame5.SetTyp (idx + 2) (src.Typ cnt')).SetDead (idx + 2)
                (src.Dead cnt'))
              let frame7 :=
                if ¬ frame6.Dead (idx + 2) then { frame6 with Act := frame6.Act + 1 } else frame6
              splitUpperLoop src maxCnt fuel cnt' (idx + 2) nxt2 frame7
        else
          match frame2.SetKeyOffset 1 nxt2 with
          | none => none
          | some frame3 =>
            let frame4 := ((frame3.SetTyp 1 (src.Typ cnt')).SetDead 1 (src.Dead cnt'))
            let frame5 := if ¬ frame4.Dead 1 then { frame4 with Act := frame4.Act + 1 } else frame4
            splitUpperLoop src maxCnt fuel cnt' 1 nxt2 frame5
    else some (frame, idx, nxt)

/-- The lower-half rebuild loop of `splitPage` (frame snapshot back into the
original page); all kept slots are live, `Act` is incremented per slot. -/
def splitLowerLoop (frame : Page) (maxCnt : Nat) :
    Nat → Nat → Nat → Nat → Page → Option (Page × Nat × Nat)
  | 0, _, _, _, _ => none
  | fuel + 1, cnt, idx, nxt, page =>
    if cnt < maxCnt then
      let cnt' := cnt + 1
      if frame.Dead cnt' then splitLowerLoop frame maxCnt fuel cnt' idx nxt page
      else
        let val := frame.Value cnt'
        let nxt1 := sub32 nxt (val.length + 1)
        let page1 := { page with Data := wrBytes page.Data nxt1 (val.length :: val) }
        let key := frame.Key cnt'
        let nxt2 := sub32 nxt1 (key.length + 1)
        let page2 := { page1 with Data := wrBytes page1.Data nxt2 (key.length :: key) }
        if 0 < idx then
          match page2.SetKeyOffset (idx + 1) nxt2 with
          | none => none
          | some page3 =>
            let page4 := ((page3.SetTyp (idx + 1) Librarian).SetDead (idx + 1) true)
            match page4.SetKeyOffset (idx + 2) nxt2 with
            | none => none
            | some page5 =>
              let page6 := { (page5.SetTyp (idx + 2) (frame.Typ cnt')) with
                Act := (page5.SetTyp (idx + 2) (frame.Typ cnt')).Act + 1 }
              splitLowerLoop frame maxCnt fuel cnt' (idx + 2) nxt2 page6
        else
          match page2.SetKeyOffset 1 nxt2 with
          | none => none
          | some page3 =>
            let page4 := { (page3.SetTyp 1 (frame.Typ cnt')) with
              Act := (page3.SetTyp 1 (frame.Typ cnt')).Act + 1 }
            splitLowerLoop frame maxCnt fuel cnt' 1 nxt2 page4
    else some (page, idx, nxt)

/-- `splitPage` of `bltree.go`: copy the upper half of slots to a new right
page, rebuild the lower half in place, link `Right`.  Returns the new right
page number, with 0 standing for the entry-0 failure of `NewPage`. -/
def splitPageF (s : St) (pageNo : Nat) (p : Page) : Option (St × Nat) :=
  match splitUpperLoop p p.Cnt (p.Cnt + 1) (p.Cnt / 2) 0 s.pds emptyPage with
  | none => none
  | some (frame1, idx, nxt) =>
    let frame2 : Page :=
      { frame1 with
          Bits := s.bits
          Min := nxt
          Cnt := idx
          Lvl := p.Lvl
          Right := if RootPage < pageNo then p.Right else frame1.Right }
    match NewPageMgr s frame2 with
    | (s1, none) => some (s1, 0)
    | (s1, some rightNo) =>
      let max2 := p.Cnt / 2
      let max3 := if p.Typ max2 = Librarian then max2 - 1 else max2
      let p0 := { p with Data := fun _ => 0, Garbage := 0, Act := 0 }
      match splitLowerLoop p max3 (max3 + 1) 0 0 s.pds p0 with
      | none => none
      | some (page1, idx2, nxt2) =>
        some (St.upd s1 pageNo { page1 with Right := rightNo, Min := nxt2, Cnt := idx2 },
          rightNo)

/-- `splitRoot` of `bltree.go`: move the old root to a fresh left page and
rewrite the root with the left fence key and the `{0xff,0xff}` stopper. -/
def splitRootF (s : St) (rootNo : Nat) (root : Page) (rightNo : Nat) :
    Option (BLTErr × St) :=
  let leftKey := root.Key root.Cnt
  match NewPageMgr s root with
  | (s1, none) => some (s1.mgrErr, s1)
  | (s1, some leftNo) =>
    let root0 := { root with Data := fun _ => 0 }
    let nxt1 := sub32 s.pds (BtId + 1)
    let root1 := { root0 with Data := wrBytes root0.Data nxt1 (BtId :: putIDBytes rightNo) }
    let nxt2 := sub32 nxt1 3
    match root1.SetKeyOffset 2 nxt2 with
    | none => none
    | some root2 =>
      let root3 := { root2 with Data := wrBytes root2.Data nxt2 [2, 255, 255] }
      let nxt3 := sub32 nxt2 (BtId + 1)
      let root4 := { root3 with Data := wrBytes root3.Data nxt3 (BtId :: putIDBytes leftNo) }
      let nxt4 := sub32 nxt3 (leftKey.length + 1)
      match root4.SetKeyOffset 1 nxt4 with
      | none => none
      | some root5 =>
        let root6 : Page :=
          { root5 with
              Data := wrBytes root5.Data nxt4 (leftKey.length :: leftKey)
              Right := 0
              Min := nxt4
              Cnt := 2
              Act := 2
              Lvl := root.Lvl + 1 }
        some (BLTErr.Ok, St.upd s1 rootNo root6)

/-- The tail-compaction loop of `deleteKey`: drop trailing dead slots beneath
the fence. -/
def collapseSlots : Nat → Page → Page
  | 0, p => p
  | fuel + 1, p =>
    if 0 < p.Cnt - 1 then
      if p.Dead (p.Cnt - 1) then
        let p1 := { p with
          Data := wrBytes p.Data (slotOff (p.Cnt - 1)) (rdBytes p.Data (slotOff p.Cnt) 6) }
        let p2 := p1.ClearSlot p1.Cnt
        collapseSlots fuel { p2 with Cnt := p2.Cnt - 1 }
      else p
    else p

/-- The first-live-slot scan of `collapseRoot`. -/
def collapseRootScan (p : Page) : Nat → Nat → Nat
  | 0, idx => idx
  | fuel + 1, idx =>
    if idx ≤ p.Cnt then
      if ¬ p.Dead idx then idx else collapseRootScan p fuel (idx + 1)
    else idx

/-! ### The mutually recursive tree operations of `bltree.go`

`insertKey`, `deleteKey`, `splitKeys`, `fixFence`, `collapseRoot` and
`deletePage` call each other across levels; they are combined into one
fuel-indexed interpreter with an operation tag so that the recursion is
structural on the fuel (every cross-call strictly decreases it). -/

inductive Op where
  | ins (key : List Nat) (lvl : Nat) (value : List Nat) (uniq : Bool)
  | insLoop (key : List Nat) (lvl : Nat) (value ins : List Nat) (typ : Nat) (uniq : Bool)
  | del (key : List Nat) (lvl : Nat)
  | splitK (pageNo rightNo : Nat)
  | fixF (pageNo lvl : Nat)
  | collapse (rootNo : Nat)
  | delPage (pageNo : Nat)

def runOp : Nat → St → Op → Option (BLTErr × St)
  | 0, _, _ => none
  | fuel + 1, s, op =>
    match op with
    | .ins key lvl value uniq =>
      -- `insertKey` entry: pick the slot type, extend duplicates with the
      -- sequence bytes, then enter the retry loop
      if uniq then runOp fuel s (.insLoop key lvl value key Unique uniq)
      else
        runOp fuel { s with dups := s.dups + 1 }
          (.insLoop key lvl value (key ++ putIDBytes (s.dups + 1)) Duplicate uniq)
    | .insLoop key lvl value ins typ uniq =>
      match loadPageGo s key lvl false fuel RootPage 255 with
      | (none, e) =>
        -- slot 0: `if tree.err != BLTErrOk { tree.err = BLTErrOverflow };
        -- return tree.err`
        let s1 := { s with mgrErr := e }
        if s1.treeErr ≠ BLTErr.Ok then
          some (BLTErr.Overflow, { s1 with treeErr := BLTErr.Overflow })
        else some (s1.treeErr, s1)
      | (some (pageNo, slot0), _) =>
        match s.pages pageNo with
        | none => none
        | some page =>
          let slot :=
            if page.Typ slot0 = Librarian ∧ KeyCmp (page.Key slot0) key = 0
            then slot0 + 1 else slot0
          let ptr := page.Key slot
          let keyLen :=
            if page.Typ slot = Duplicate
            then (ptr.length % 256 + 256 - BtId) % 256
            else ptr.length % 256
          if (uniq ∧ (keyLen ≠ ins.length % 256 ∨ KeyCmp ptr ins ≠ 0)) ∨ ¬ uniq then
            match cleanPageF s.pds page (ins.length % 256) slot BtId with
            | none => none
            | some (slot1, page1) =>
              let s1 := St.upd s pageNo page1
              if slot1 = 0 then
                match splitPageF s1 pageNo page1 with
                | none => none
                | some (s2, entry) =>
                  if entry = 0 then some (s2.treeErr, s2)
                  else
                    match runOp fuel s2 (.splitK pageNo entry) with
                    | none => none
                    | some (e1, s3) =>
                      if e1 ≠ BLTErr.Ok then some (e1, s3)
                      else runOp fuel s3 (.insLoop key lvl value ins typ uniq)
              else
                match insertSlotF page1 slot1 ins value typ with
                | none => none
                | some page2 => some (BLTErr.Ok, St.upd s1 pageNo page2)
          else
            -- unique key match: revive the slot if dead and update the value
            let page1 := if page.Dead slot then { page with Act := page.Act + 1 } else page
            let page2 := (page1.SetDead slot false).SetValue value slot
            some (BLTErr.Ok, St.upd s pageNo page2)
    | .del key lvl =>
      match loadPageGo s key lvl false fuel RootPage 255 with
      | (none, e) => some (s.treeErr, { s with mgrErr := e })
      | (some (pageNo, slot0), _) =>
        match s.pages pageNo with
        | none => none
        | some page =>
          let slot := if page.Typ slot0 = Librarian then slot0 + 1 else slot0
          let ptr := page.Key slot
          let fence := slot = page.Cnt
          if KeyCmp ptr key = 0 ∧ ¬ page.Dead slot then
            let val := page.Value slot
            let page1 := page.SetDead slot true
            let page2 :=
              { page1 with
                  Garbage := page1.Garbage + (1 + ptr.length) + (1 + val.length)
                  Act := sub32 page1.Act 1 }
            let page3 := collapseSlots (page2.Cnt + 1) page2
            let s1 := St.upd { s with found := true } pageNo page3
            if 0 < lvl ∧ 0 < page3.Act ∧ fence then runOp fuel s1 (.fixF pageNo lvl)
            else if 1 < lvl ∧ pageNo = RootPage ∧ page3.Act = 1 then
              runOp fuel s1 (.collapse pageNo)
            else if page3.Act = 0 then runOp fuel s1 (.delPage pageNo)
            else some (BLTErr.Ok, s1)
          else
            let s1 := { s with found := false }
            if 1 < lvl ∧ pageNo = RootPage ∧ page.Act = 1 then
              runOp fuel s1 (.collapse pageNo)
            else if page.Act = 0 then runOp fuel s1 (.delPage pageNo)
            else some (BLTErr.Ok, s1)
    | .splitK pageNo rightNo =>
      match s.pages pageNo with
      | none => none
      | some page =>
        if pageNo = RootPage then splitRootF s pageNo page rightNo
        else
          let leftKey := page.Key page.Cnt
          match s.pages rightNo with
          | none => none
          | some rpage =>
            let rightKey := rpage.Key rpage.Cnt
            match runOp fuel s (.ins leftKey (page.Lvl + 1) (putIDBytes pageNo) true) with
            | none => none
            | some (e1, s1) =>
              if e1 ≠ BLTErr.Ok then some (e1, s1)
              else
                match runOp fuel s1 (.ins rightKey (page.Lvl + 1) (putIDBytes rightNo) true) with
                | none => none
                | some (e2, s2) =>
                  if e2 ≠ BLTErr.Ok then some (e2, s2) else some (BLTErr.Ok, s2)
    | .fixF pageNo lvl =>
      match s.pages pageNo with
      | none => none
      | some page =>
        let rightKey := page.Key page.Cnt
        let page1 := page.ClearSlot page.Cnt
        let page2 := { page1 with Cnt := page1.Cnt - 1 }
        let leftKey := page2.Key page2.Cnt
        let s1 := St.upd s pageNo page2
        match runOp fuel s1 (.ins leftKey (lvl + 1) (putIDBytes pageNo) true) with
        | none => none
        | some (e1, s2) =>
          if e1 ≠ BLTErr.Ok then some (e1, s2)
          else
            match runOp fuel s2 (.del rightKey (lvl + 1)) with
            | none => none
            | some (e2, s3) =>
              if e2 ≠ BLTErr.Ok then some (e2, s3) else some (BLTErr.Ok, s3)
    | .collapse rootNo =>
      match s.pages rootNo with
      | none => none
      | some root =>
        let idx := collapseRootScan root (root.Cnt + 1) 1
        let childNo := GetIDFromValue (root.Value idx)
        match s.pages childNo with
        | none => some (s.treeErr, s)
        | some child =>
          let s1 := FreePageMgr (St.upd s rootNo child) childNo
          if 1 < child.Lvl ∧ child.Act = 1 then runOp fuel s1 (.collapse rootNo)
          else some (BLTErr.Ok, s1)
    | .delPage pageNo =>
      match s.pages pageNo with
      | none => none
      | some page =>
        let lowerFence := page.Key page.Cnt
        let rightNo := page.Right
        match s.pages rightNo with
        | none => some (BLTErr.Ok, s)
        | some rpage =>
          let higherFence := rpage.Key rpage.Cnt
          if rpage.Kill then some (BLTErr.Struct, { s with treeErr := BLTErr.Struct })
          else
            let s1 := St.upd s pageNo rpage
            let s2 := St.upd s1 rightNo { rpage with Right := pageNo, Kill := true }
            match runOp fuel s2 (.ins higherFence (rpage.Lvl + 1) (putIDBytes pageNo) true) with
            | none => none
            | some (e1, s3) =>
              if e1 ≠ BLTErr.Ok then some (e1, s3)
              else
                match s3.pages pageNo with
                | none => none
                | some pg =>
                  match runOp fuel s3 (.del lowerFence (pg.Lvl + 1)) with
                  | none => none
                  | some (e2, s4) =>
                    if e2 ≠ BLTErr.Ok then some (e2, s4)
                    else some (BLTErr.Ok, { FreePageMgr s4 rightNo with found := true })

/-- `insertKey` of `bltree.go` over the sequential model. -/
def insertKeyF (fuel : Nat) (s : St) (key : List Nat) (lvl : Nat) (value : List Nat)
    (uniq : Bool) : Option (BLTErr × St) :=
  runOp fuel s (.ins key lvl value uniq)

/-- `deleteKey` of `bltree.go` over the sequential model. -/
def deleteKeyF (fuel : Nat) (s : St) (key : List Nat) (lvl : Nat) : Option (BLTErr × St) :=
  runOp fuel s (.del key lvl)

/-- The `findKey` scan loop together with the `findNext` slide; returns
`(n, foundKey, foundValue)` with `n = -1` for absence. -/
def findKeyLoop (s : St) (key : List Nat) (valMax : Nat) :
    Nat → Nat → Nat → List Nat → Int × List Nat × List Nat
  | 0, _, _, fk => (-1, fk, [])
  | fuel + 1, pageNo, slot, _ =>
    match s.pages pageNo with
    | none => (-1, [], [])
    | some page =>
      let slot1 := if page.Typ slot = Librarian then slot + 1 else slot
      let ptr := page.Key slot1
      let keyLen :=
        if page.Typ slot1 = Duplicate
        then (ptr.length % 256 + 256 - BtId) % 256
        else ptr.length % 256
      if slot1 = page.Cnt ∧ page.Right = 0 then (-1, ptr, [])
      else if page.Dead slot1 then
        -- `findNext`: next slot in page, else slide right
        if slot1 < page.Cnt then findKeyLoop s key valMax fuel pageNo (slot1 + 1) ptr
        else if 0 < page.Right then
          match s.pages page.Right with
          | none => (-1, ptr, [])
          | some _ => findKeyLoop s key valMax fuel page.Right 1 ptr
        else (-1, ptr, [])
      else if keyLen = key.length ∧ KeyCmp (ptr.take keyLen) key = 0 then
        let val := page.Value slot1
        let vm := if val.length < valMax then val.length else valMax
        ((vm : Int), ptr, val.take vm)
      else (-1, ptr, [])

/-- `findKey` of `bltree.go`: load the leaf read-locked and scan. -/
def findKeyF (s : St) (key : List Nat) (valMax : Nat) (fuel : Nat) :
    Int × List Nat × List Nat :=
  match loadPageGo s key 0 true fuel RootPage 255 with
  | (none, _) => (-1, [], [])
  | (some (pageNo, slot), _) => findKeyLoop s key valMax fuel pageNo slot []

/-! ### Fresh-file initialisation (`NewBufMgr` of `bufmgr.go`) and the
initial tree state -/

/-- The pages `NewBufMgr` writes when it creates a fresh file (`initit`):
page 0 gets only `Bits` and the allocator pointer `Right = MinLvl + 1`; the
second page buffer is reused for the root (written as page 1) and then the
leaf (written as page 2), each with the `{0xff,0xff}` stopper key.  `none` is
the `SetKeyOffset` panic, which fires for `bits > 15`. -/
def newBufMgrInit (bits : Nat) : Option (List (Nat × Page)) :=
  let pds := 2 ^ bits - PageHeaderSize
  let alloc0 : Page := { emptyPage with Bits := bits, Right := MinLvl + 1 }
  let p : Page := { emptyPage with Bits := bits }
  match p.SetKeyOffset 1 (pds - 3 - (1 + BtId)) with
  | none => none
  | some p1 =>
    let p2 := p1.SetKey [255, 255] 1
    let p3 := p2.SetValue (putIDBytes 2) 1
    let p4 : Page := { p3 with Min := p3.KeyOffset 1, Lvl := 1, Cnt := 1, Act := 1 }
    match p4.SetKeyOffset 1 (pds - 3 - 1) with
    | none => none
    | some p5 =>
      let p6 := p5.SetKey [255, 255] 1
      let p7 := p6.SetValue [] 1
      let p8 : Page := { p7 with Min := p7.KeyOffset 1, Lvl := 0, Cnt := 1, Act := 1 }
      some [(0, alloc0), (1, p4), (2, p8)]

/-- The state right after creating a fresh tree with `bits = 15` (the page
size every test in the repository uses): the three initial pages on disk, the
allocator at `MinLvl + 1`, an empty free chain, no errors. -/
def initSt : St where
  pds := 2 ^ 15 - PageHeaderSize
  bits := 15
  pages := fun pn => ((newBufMgrInit 15).getD []).find? (fun q => q.1 = pn) |>.map Prod.snd
  allocRight := MinLvl + 1
  chain := 0
  dups := 0
  mgrErr := .Ok
  treeErr := .Ok
  found := false

/-- C8's claim as stated: all three initial pages carry a stopper key with
`Cnt = 1, Act = 1`; the root points at the leaf, the leaf value is empty, the
allocator pointer is `MinLvl + 1`. -/
def NewFileClaimAt (bits : Nat) : Prop :=
  (newBufMgrInit bits).isSome ∧
  ((newBufMgrInit bits).getD []).map Prod.fst = [0, 1, 2] ∧
  (∀ q ∈ (newBufMgrInit bits).getD [],
    q.2.Cnt = 1 ∧ q.2.Act = 1 ∧ q.2.Key 1 = [255, 255]) ∧
  (((newBufMgrInit bits).getD []).getD 1 (0, emptyPage)).2.Lvl = 1 ∧
  (((newBufMgrInit bits).getD []).getD 2 (0, emptyPage)).2.Lvl = 0 ∧
  (((newBufMgrInit bits).getD []).getD 1 (0, emptyPage)).2.Value 1 = putIDBytes 2 ∧
  (((newBufMgrInit bits).getD []).getD 2 (0, emptyPage)).2.Value 1 = [] ∧
  (((newBufMgrInit bits).getD []).getD 0 (0, emptyPage)).2.Right = MinLvl + 1

instance (bits : Nat) : Decidable (NewFileClaimAt bits) := by
  unfold NewFileClaimAt; infer_instance

/-- C8 counterexample: on a fresh `bits = 15` file the allocation page (page
0) is written with `Cnt = 0` and no stopper key at all — only the root and
the leaf carry the stopper — so "each carrying a single stopper key
(Cnt=1, Act=1)" is false as stated. -/
theorem NewBufMgr_init_counterexample :
    ¬ NewFileClaimAt 15 ∧
    (((newBufMgrInit 15).getD []).getD 0 (0, emptyPage)).2.Cnt = 0 := by decide

/-- C8 (amended): creating a fresh `bits = 15` file writes exactly pages
0, 1, 2; page 0 carries only the header with `Bits` and the allocator pointer
`Right = MinLvl + 1 = 3` (`Cnt = Act = 0`, no key); the root (page 1,
`Lvl = 1`) and the leaf (page 2, `Lvl = 0`) each carry a single live stopper
key `{0xff,0xff}` with `Cnt = 1, Act = 1`; the root's stopper value is the
leaf's page number 2 and the leaf's stopper value is empty. -/
theorem NewBufMgr_init_amended :
    (newBufMgrInit 15).isSome ∧
    ((newBufMgrInit 15).getD []).map Prod.fst = [0, 1, 2] ∧
    ((((newBufMgrInit 15).getD []).getD 0 (0, emptyPage)).2.Cnt = 0 ∧
      (((newBufMgrInit 15).getD []).getD 0 (0, emptyPage)).2.Act = 0 ∧
      (((newBufMgrInit 15).getD []).getD 0 (0, emptyPage)).2.Lvl = 0 ∧
      (((newBufMgrInit 15).getD []).getD 0 (0, emptyPage)).2.Bits = 15 ∧
      (((newBufMgrInit 15).getD []).getD 0 (0, emptyPage)).2.Right = MinLvl + 1) ∧
    ((((newBufMgrInit 15).getD []).getD 1 (0, emptyPage)).2.Lvl = 1 ∧
      (((newBufMgrInit 15).getD []).getD 1 (0, emptyPage)).2.Cnt = 1 ∧
      (((newBufMgrInit 15).getD []).getD 1 (0, emptyPage)).2.Act = 1 ∧
      (((newBufMgrInit 15).getD []).getD 1 (0, emptyPage)).2.Dead 1 = false ∧
      (((newBufMgrInit 15).getD []).getD 1 (0, emptyPage)).2.Key 1 = [255, 255] ∧
      (((newBufMgrInit 15).getD []).getD 1 (0, emptyPage)).2.Value 1 = putIDBytes 2) ∧
    ((((newBufMgrInit 15).getD []).getD 2 (0, emptyPage)).2.Lvl = 0 ∧
      (((newBufMgrInit 15).getD []).getD 2 (0, emptyPage)).2.Cnt = 1 ∧
      (((newBufMgrInit 15).getD []).getD 2 (0, emptyPage)).2.Act = 1 ∧
      (((newBufMgrInit 15).getD []).getD 2 (0, emptyPage)).2.Dead 1 = false ∧
      (((newBufMgrInit 15).getD []).getD 2 (0, emptyPage)).2.Key 1 = [255, 255] ∧
      (((newBufMgrInit 15).getD []).getD 2 (0, emptyPage)).2.Value 1 = []) := by decide

/-- The tree state after inserting the stopper key `{0xff,0xff}` itself into
a fresh tree. -/
def stopperSt : St :=
  ((insertKeyF 20 initSt [255, 255] 0 [0, 0, 0, 0, 0, 1] true).map Prod.snd).getD initSt

/-- C1 counterexample: inserting the two-byte key `{0xff,0xff}` — a key of
length at most 255 bytes — into a fresh tree returns Ok (it matches the leaf
stopper and takes the update-in-place path), yet `find_key` then returns
`-1` because the scan stops at the stopper slot before comparing the key. -/
theorem insert_find_counterexample :
    (insertKeyF 20 initSt [255, 255] 0 [0, 0, 0, 0, 0, 1] true).map (fun r => r.1) =
      some BLTErr.Ok ∧
    (findKeyF stopperSt [255, 255] 6 20).1 = -1 := by decide

/-! ### Read-after-write toolkit for the byte memory -/

theorem wrBytes_lt {d : Mem} {off i : Nat} {l : List Nat} (h : i < off) :
    wrBytes d off l i = d i := by
  unfold wrBytes
  rw [if_neg]
  omega

theorem wrBytes_ge {d : Mem} {off i : Nat} {l : List Nat} (h : off + l.length ≤ i) :
    wrBytes d off l i = d i := by
  unfold wrBytes
  rw [if_neg]
  omega

theorem wrBytes_in {d : Mem} {off i : Nat} {l : List Nat} (h1 : off ≤ i)
    (h2 : i < off + l.length) : wrBytes d off l i = l.getD (i - off) 0 % 256 := by
  unfold wrBytes
  rw [if_pos ⟨h1, h2⟩]

theorem wr8_ne {d : Mem} {i j v : Nat} (h : j ≠ i) : wr8 d i v j = d j := by
  unfold wr8
  rw [if_neg h]

theorem wr8_self {d : Mem} {i v : Nat} : wr8 d i v i = v % 256 := by
  unfold wr8
  rw [if_pos rfl]

theorem rdBytes_congr {d1 d2 : Mem} {off n : Nat}
    (h : ∀ j, j < n → d1 (off + j) = d2 (off + j)) : rdBytes d1 off n = rdBytes d2 off n := by
  unfold rdBytes
  refine List.map_congr_left ?_
  intro i hi
  exact h i (List.mem_range.mp hi)

theorem rdBytes_wrBytes_self (d : Mem) (off : Nat) (l : List Nat) :
    rdBytes (wrBytes d off l) off l.length = l.map (· % 256) := by
  refine List.ext_getElem (by simp [rdBytes]) ?_
  intro i h1 h2
  have hi : i < l.length := by simpa [rdBytes] using h1
  simp only [rdBytes, List.getElem_map, List.getElem_range]
  rw [wrBytes_in (by omega) (by omega)]
  rw [Nat.add_sub_cancel_left]
  rw [List.getD_eq_getElem l 0 hi]

theorem map_mod256_self {l : List Nat} (h : ∀ b ∈ l, b < 256) : l.map (· % 256) = l := by
  induction l with
  | nil => rfl
  | cons a l ih =>
    simp only [List.map_cons, List.cons.injEq]
    constructor
    · exact Nat.mod_eq_of_lt (h a (by simp))
    · exact ih fun b hb => h b (by simp [hb])

/-! ### The concrete root and leaf pages of a fresh `bits = 15` tree -/

/-- The root page (page 1) of a fresh `bits = 15` tree. -/
def root0 : Page := (((newBufMgrInit 15).getD []).getD 1 (0, emptyPage)).2

/-- The leaf page (page 2) of a fresh `bits = 15` tree. -/
def leaf0 : Page := (((newBufMgrInit 15).getD []).getD 2 (0, emptyPage)).2

theorem initSt_pages_one : initSt.pages 1 = some root0 := rfl

theorem initSt_pages_two : initSt.pages 2 = some leaf0 := rfl

theorem root0_Free : root0.Free = false := rfl
theorem root0_Kill : root0.Kill = false := rfl
theorem root0_Lvl : root0.Lvl = 1 := rfl
theorem root0_FindSlot (key : List Nat) : root0.FindSlot key = 1 := rfl

/-- The root drill step is independent of the key: the single root slot is
live and points at page 2. -/
theorem root0_body (key : List Nat) (lvl : Nat) (h : lvl ≠ 1) :
    loadPageBody key lvl 1 root0 1 = .next 2 0 := by
  unfold loadPageBody
  rw [if_neg (by rw [root0_Kill]; simp)]
  rw [root0_FindSlot]
  rw [if_pos (by omega)]
  rw [if_neg (by omega)]
  rfl

theorem leaf0_Min : leaf0.Min = 32738 := rfl
theorem leaf0_Cnt : leaf0.Cnt = 1 := rfl
theorem leaf0_Act : leaf0.Act = 1 := rfl
theorem leaf0_Lvl : leaf0.Lvl = 0 := rfl
theorem leaf0_Right : leaf0.Right = 0 := rfl
theorem leaf0_Free : leaf0.Free = false := rfl
theorem leaf0_Kill : leaf0.Kill = false := rfl
theorem leaf0_Garbage : leaf0.Garbage = 0 := rfl
theorem leaf0_Bits : leaf0.Bits = 15 := rfl
theorem leaf0_Typ_one : leaf0.Typ 1 = Unique := rfl
theorem leaf0_Dead_one : leaf0.Dead 1 = false := rfl
theorem leaf0_Key_one : leaf0.Key 1 = [255, 255] := rfl
theorem leaf0_KeyOffset_one : leaf0.KeyOffset 1 = 32738 := rfl
theorem leaf0_FindSlot (key : List Nat) : leaf0.FindSlot key = 1 := rfl

/-! ### Step lemmas for the `LoadPage` drill loop -/

theorem loadPageGo_next {s : St} {key : List Nat} {lvl : Nat} {lockRead : Bool}
    {fuel pageNo drill : Nat} {page : Page} {pno d : Nat}
    (hp : s.pages pageNo = some page) (h0 : pageNo ≠ 0) (hfree : page.Free = false)
    (hlvl : page.Lvl = drill)
    (hbody : loadPageBody key lvl pageNo page drill = .next pno d) :
    loadPageGo s key lvl lockRead (fuel + 1) pageNo drill =
      loadPageGo s key lvl lockRead fuel pno d := by
  conv_lhs => unfold loadPageGo
  rw [if_neg h0, hp]
  simp only [hfree, hlvl, ne_eq, not_true_eq_false, false_and, if_false, Bool.false_eq_true]
  rw [hbody]

theorem loadPageGo_done {s : St} {key : List Nat} {lvl : Nat} {lockRead : Bool}
    {fuel pageNo drill : Nat} {page : Page} {pno slot : Nat}
    (hp : s.pages pageNo = some page) (h0 : pageNo ≠ 0) (hfree : page.Free = false)
    (hlvl : page.Lvl = drill)
    (hbody : loadPageBody key lvl pageNo page drill = .done pno slot) :
    loadPageGo s key lvl lockRead (fuel + 1) pageNo drill = (some (pno, slot), BLTErr.Ok) := by
  conv_lhs => unfold loadPageGo
  rw [if_neg h0, hp]
  simp only [hfree, hlvl, ne_eq, not_true_eq_false, false_and, if_false, Bool.false_eq_true]
  rw [hbody]

theorem loadPageGo_relearn_next {s : St} {key : List Nat} {lvl : Nat} {lockRead : Bool}
    {fuel drill : Nat} {page : Page} {pno d : Nat}
    (hp : s.pages RootPage = some page) (hfree : page.Free = false)
    (hlvl : page.Lvl ≠ drill)
    (hretry : lockRead = true ∨ page.Lvl ≠ lvl)
    (hbody : loadPageBody key lvl RootPage page page.Lvl = .next pno d) :
    loadPageGo s key lvl lockRead (fuel + 1) RootPage drill =
      loadPageGo s key lvl lockRead fuel pno d := by
  conv_lhs => unfold loadPageGo
  rw [if_neg (by unfold RootPage; omega), hp]
  simp only [hfree, Bool.false_eq_true, if_false, ne_eq, not_true_eq_false, and_false,
    false_and]
  rw [if_neg (by
    intro hcon
    rcases hcon with ⟨-, h2, h3⟩
    rcases hretry with h | h
    · rw [h] at h2; exact h2 rfl
    · exact h h3)]
  rw [if_pos (by simpa using hlvl)]
  rw [hbody]

theorem loadPageGo_relearn_done {s : St} {key : List Nat} {lvl : Nat} {lockRead : Bool}
    {fuel drill : Nat} {page : Page} {pno slot : Nat}
    (hp : s.pages RootPage = some page) (hfree : page.Free = false)
    (hlvl : page.Lvl ≠ drill)
    (hretry : lockRead = true ∨ page.Lvl ≠ lvl)
    (hbody : loadPageBody key lvl RootPage page page.Lvl = .done pno slot) :
    loadPageGo s key lvl lockRead (fuel + 1) RootPage drill = (some (pno, slot), BLTErr.Ok) := by
  conv_lhs => unfold loadPageGo
  rw [if_neg (by unfold RootPage; omega), hp]
  simp only [hfree, Bool.false_eq_true, if_false, ne_eq, not_true_eq_false, and_false,
    false_and]
  rw [if_neg (by
    intro hcon
    rcases hcon with ⟨-, h2, h3⟩
    rcases hretry with h | h
    · rw [h] at h2; exact h2 rfl
    · exact h h3)]
  rw [if_pos (by simpa using hlvl)]
  rw [hbody]

/-- Drilling from the root of a two-level tree whose root is `root0`: the
drill re-learns the root level, descends to page 2 and returns its
`FindSlot` result. -/
theorem loadPage_step2 (s : St) (key : List Nat) (lockRead : Bool) (fuel : Nat) (p2 : Page)
    (h1 : s.pages 1 = some root0) (h2 : s.pages 2 = some p2)
    (hl : p2.Lvl = 0) (hk : p2.Kill = false) (hf : p2.Free = false)
    (hs : 0 < p2.FindSlot key) :
    loadPageGo s key 0 lockRead (fuel + 2) 1 255 = (some (2, p2.FindSlot key), BLTErr.Ok) := by
  have step1 :
      loadPageGo s key 0 lockRead (fuel + 1 + 1) 1 255 =
        loadPageGo s key 0 lockRead (fuel + 1) 2 0 := by
    have hb : loadPageBody key 0 RootPage root0 root0.Lvl = .next 2 0 := by
      rw [root0_Lvl]
      exact root0_body key 0 (by omega)
    exact loadPageGo_relearn_next h1 root0_Free (by rw [root0_Lvl]; omega)
      (Or.inr (by rw [root0_Lvl]; omega)) hb
  have step2 : loadPageGo s key 0 lockRead (fuel + 1) 2 0 =
      (some (2, p2.FindSlot key), BLTErr.Ok) := by
    refine loadPageGo_done h2 (by omega) hf hl ?_
    unfold loadPageBody
    rw [if_neg (by rw [hk]; simp), if_pos hs, if_pos rfl]
  rw [show fuel + 2 = fuel + 1 + 1 from rfl, step1, step2]

/-! ### The leaf after the first insert into a fresh tree -/

theorem pow32 : (2 : Nat) ^ 32 = 4294967296 := by norm_num

theorem sub32_small {a b : Nat} (hb : b ≤ a) (ha : a < 4294967296) : sub32 a b = a - b := by
  unfold sub32
  rw [pow32]
  omega

theorem shiftSlots_stop {lib fuel idx stop : Nat} {p : Page} (h : ¬ stop < idx) :
    shiftSlots lib (fuel + 1) idx stop p = some p := by
  unfold shiftSlots
  rw [if_neg h]

theorem leaf0_d4 : leaf0.Data 4 = 0 := rfl
theorem leaf0_d5 : leaf0.Data 5 = 0 := rfl

/-- The single pass of `insertSlot`'s shift loop when the lone fence slot of
a one-slot page moves to slot 3 (reads resolved against a page agreeing with
`leaf0` on the slot area). -/
theorem shiftSlots_leaf (p : Page) (hD : ∀ i, i < 18 → p.Data i = leaf0.Data i) :
    shiftSlots 2 4 3 2 p =
      some { p with Data := wrBytes (wr8 (wr8 p.Data 17 0) 16 0) 12 (le32 32738) } := by
  have hr2 : rdLE32 (wr8 (wr8 p.Data 17 0) 16 0) 0 = 32738 := by
    unfold rdLE32
    rw [wr8_ne (by omega), wr8_ne (by omega), wr8_ne (by omega), wr8_ne (by omega),
      wr8_ne (by omega), wr8_ne (by omega), wr8_ne (by omega), wr8_ne (by omega)]
    norm_num
    rw [hD 0 (by omega), hD 1 (by omega), hD 2 (by omega), hD 3 (by omega)]
    decide
  rw [show (4 : Nat) = 3 + 1 from rfl]
  unfold shiftSlots
  rw [if_pos (by omega)]
  simp only [Page.SetDead, Page.SetTyp, Page.SetKeyOffset, Page.Dead, Page.Typ, Page.KeyOffset,
    slotOff]
  norm_num
  rw [hD 5 (by omega)]
  simp only [leaf0_d5]
  norm_num
  rw [wr8_ne (by omega : (4 : Nat) ≠ 17)]
  rw [hD 4 (by omega)]
  simp only [leaf0_d4]
  rw [hr2]
  rw [if_neg (by omega : ¬ 32767 < 32738)]
  simp only []
  exact shiftSlots_stop (by omega)

/-- The leaf page after `insertSlot` has placed `(k, v)` before the stopper
of `leaf0`: the stopper moves to slot 3, a dead librarian copy of the new key
sits at slot 1, the live key at slot 2. -/
def insLeaf (k v : List Nat) : Page where
  Cnt := 3
  Act := 2
  Min := 32730 - k.length
  Garbage := 0
  Bits := 15
  Free := false
  Lvl := 0
  Kill := false
  Right := 0
  Data :=
    wr8 (wr8 (wrBytes (wr8 (wr8 (wrBytes (wrBytes (wr8 (wr8
      (wrBytes (wrBytes leaf0.Data 32731 (v.length :: v)) (32730 - k.length)
        (k.length :: k))
      17 0) 16 0) 12 (le32 32738)) 0 (le32 (32730 - k.length))) 4 1) 5 1)
      6 (le32 (32730 - k.length))) 10 0) 11 0

theorem rdBytes_wrBytes_tail (d : Mem) (off a : Nat) (l : List Nat) :
    rdBytes (wrBytes d off (a :: l)) (off + 1) l.length = l.map (· % 256) := by
  refine List.ext_getElem (by simp [rdBytes]) ?_
  intro i h1 h2
  have hi : i < l.length := by simpa [rdBytes] using h1
  simp only [rdBytes, List.getElem_map, List.getElem_range]
  rw [wrBytes_in (by omega) (by simp only [List.length_cons]; omega)]
  have hidx : off + 1 + i - off = i + 1 := by omega
  rw [hidx]
  rw [show (a :: l).getD (i + 1) 0 = l.getD i 0 from rfl]
  rw [List.getD_eq_getElem l 0 hi]

theorem insLeaf_Cnt (k v : List Nat) : (insLeaf k v).Cnt = 3 := rfl
theorem insLeaf_Act (k v : List Nat) : (insLeaf k v).Act = 2 := rfl
theorem insLeaf_Min (k v : List Nat) : (insLeaf k v).Min = 32730 - k.length := rfl
theorem insLeaf_Garbage (k v : List Nat) : (insLeaf k v).Garbage = 0 := rfl
theorem insLeaf_Right (k v : List Nat) : (insLeaf k v).Right = 0 := rfl
theorem insLeaf_Lvl (k v : List Nat) : (insLeaf k v).Lvl = 0 := rfl
theorem insLeaf_Kill (k v : List Nat) : (insLeaf k v).Kill = false := rfl
theorem insLeaf_Free (k v : List Nat) : (insLeaf k v).Free = false := rfl
theorem insLeaf_Typ_one (k v : List Nat) : (insLeaf k v).Typ 1 = Librarian := rfl
theorem insLeaf_Typ_two (k v : List Nat) : (insLeaf k v).Typ 2 = Unique := rfl
theorem insLeaf_Dead_two (k v : List Nat) : (insLeaf k v).Dead 2 = false := rfl
theorem insLeaf_Typ_three (k v : List Nat) : (insLeaf k v).Typ 3 = Unique := rfl
theorem insLeaf_Dead_three (k v : List Nat) : (insLeaf k v).Dead 3 = false := rfl

/-- Reads above the slot area of `insLeaf` see only the two heap writes. -/
theorem insLeaf_Data_high (k v : List Nat) (i : Nat) (hi : 18 ≤ i) :
    (insLeaf k v).Data i =
      wrBytes (wrBytes leaf0.Data 32731 (v.length :: v)) (32730 - k.length)
        (k.length :: k) i := by
  show wr8 _ 11 0 i = _
  rw [wr8_ne (by omega), wr8_ne (by omega),
    wrBytes_ge (by simp only [le32, List.length_cons, List.length_nil]; omega),
    wr8_ne (by omega), wr8_ne (by omega),
    wrBytes_ge (by simp only [le32, List.length_cons, List.length_nil]; omega),
    wrBytes_ge (by simp only [le32, List.length_cons, List.length_nil]; omega),
    wr8_ne (by omega), wr8_ne (by omega)]

theorem insLeaf_KeyOffset_one (k v : List Nat) :
    (insLeaf k v).KeyOffset 1 = 32730 - k.length := by
  have hD : ∀ j, j < 4 → (insLeaf k v).Data j =
      (le32 (32730 - k.length)).getD j 0 % 256 := by
    intro j hj
    show wr8 _ 11 0 j = _
    rw [wr8_ne (by omega), wr8_ne (by omega), wrBytes_lt (by omega), wr8_ne (by omega),
      wr8_ne (by omega),
      wrBytes_in (by omega) (by simp only [le32, List.length_cons, List.length_nil]; omega)]
    simp
  unfold Page.KeyOffset rdLE32 slotOff
  norm_num
  rw [hD 0 (by omega), hD 1 (by omega), hD 2 (by omega), hD 3 (by omega)]
  simp only [le32, List.getD_cons_zero, List.getD_cons_succ]
  omega

theorem insLeaf_KeyOffset_two (k v : List Nat) :
    (insLeaf k v).KeyOffset 2 = 32730 - k.length := by
  have hD : ∀ j, 6 ≤ j → j < 10 → (insLeaf k v).Data j =
      (le32 (32730 - k.length)).getD (j - 6) 0 % 256 := by
    intro j hj1 hj2
    show wr8 _ 11 0 j = _
    rw [wr8_ne (by omega), wr8_ne (by omega),
      wrBytes_in (by omega) (by simp only [le32, List.length_cons, List.length_nil]; omega)]
  unfold Page.KeyOffset rdLE32 slotOff
  norm_num
  rw [hD 6 (by omega) (by omega), hD 7 (by omega) (by omega), hD 8 (by omega) (by omega),
    hD 9 (by omega) (by omega)]
  simp only [le32, List.getD_cons_zero, List.getD_cons_succ]
  norm_num
  omega

theorem leaf0_d32741 : leaf0.Data 32741 = 0 := rfl

/-- The length byte of the freshly written key. -/
theorem insLeaf_len_byte (k v : List Nat) (hk : k.length ≤ 255) :
    (insLeaf k v).Data (32730 - k.length) = k.length := by
  rw [insLeaf_Data_high _ _ _ (by omega)]
  rw [wrBytes_in (by omega) (by simp only [List.length_cons]; omega)]
  simp only [Nat.sub_self, List.getD_cons_zero]
  omega

/-- The key stored at heap offset `32730 - k.length` reads back as `k`. -/
theorem insLeaf_key_bytes (k v : List Nat) (hk : k.length ≤ 255)
    (hkb : ∀ b ∈ k, b < 256) :
    rdBytes (insLeaf k v).Data (32730 - k.length + 1) k.length = k := by
  rw [rdBytes_congr (fun j hj => insLeaf_Data_high k v _ (by omega))]
  rw [rdBytes_wrBytes_tail _ _ _ k]
  exact map_mod256_self hkb

theorem insLeaf_Key_one (k v : List Nat) (hk : k.length ≤ 255)
    (hkb : ∀ b ∈ k, b < 256) : (insLeaf k v).Key 1 = k := by
  unfold Page.Key
  rw [insLeaf_KeyOffset_one, insLeaf_len_byte k v hk]
  exact insLeaf_key_bytes k v hk hkb

theorem insLeaf_Key_two (k v : List Nat) (hk : k.length ≤ 255)
    (hkb : ∀ b ∈ k, b < 256) : (insLeaf k v).Key 2 = k := by
  unfold Page.Key
  rw [insLeaf_KeyOffset_two, insLeaf_len_byte k v hk]
  exact insLeaf_key_bytes k v hk hkb

theorem insLeaf_Value_two (k v : List Nat) (hk : k.length ≤ 255) (hv : v.length = 6)
    (hvb : ∀ b ∈ v, b < 256) : (insLeaf k v).Value 2 = v := by
  unfold Page.Value Page.ValueOffset
  rw [insLeaf_KeyOffset_two, insLeaf_len_byte k v hk]
  rw [show 32730 - k.length + 1 + k.length = 32731 from by omega]
  have h31 : (insLeaf k v).Data 32731 = v.length := by
    rw [insLeaf_Data_high _ _ _ (by omega)]
    rw [wrBytes_ge (by simp only [List.length_cons]; omega)]
    rw [wrBytes_in (by omega) (by simp only [List.length_cons]; omega)]
    simp only [Nat.sub_self, List.getD_cons_zero]
    omega
  rw [h31]
  have hstep : ∀ j, j < v.length →
      (insLeaf k v).Data (32731 + 1 + j) =
        wrBytes leaf0.Data 32731 (v.length :: v) (32731 + 1 + j) := by
    intro j hj
    rw [insLeaf_Data_high _ _ _ (by omega)]
    rw [wrBytes_ge (by simp only [List.length_cons]; omega)]
  rw [rdBytes_congr hstep]
  rw [rdBytes_wrBytes_tail leaf0.Data 32731 v.length v]
  exact map_mod256_self hvb

theorem insertSlot_leaf0 (k v : List Nat) (hk : k.length ≤ 255) :
    insertSlotF leaf0 1 k v Unique = some (insLeaf k v) := by
  have hm1 : sub32 leaf0.Min (BtId + 1) = 32731 := by
    rw [leaf0_Min]
    unfold BtId
    rw [sub32_small (by omega) (by omega)]
  have hD2low : ∀ i, i < 18 →
      wrBytes (wrBytes leaf0.Data 32731 (v.length :: v)) (32730 - k.length)
        (k.length :: k) i = leaf0.Data i := by
    intro i hi
    rw [wrBytes_lt (by omega), wrBytes_lt (by omega)]
  unfold insertSlotF
  rw [if_neg (by simp : ¬ (1 < 1 ∧ leaf0.Typ (1 - 1) = Librarian))]
  rw [hm1]
  simp only []
  rw [show sub32 32731 (k.length + 1) = 32730 - k.length from by
    rw [sub32_small (by omega) (by omega)]
    omega]
  simp only [leaf0_Cnt, findFirstDead, leaf0_Act, leaf0_Garbage, leaf0_Bits, leaf0_Free,
    leaf0_Lvl, leaf0_Kill, leaf0_Right]
  norm_num
  rw [shiftSlots_leaf _ hD2low]
  simp only [Page.SetKeyOffset, Page.SetTyp, Page.SetDead, slotOff]
  norm_num
  rw [if_neg (by omega : ¬ 32767 < 32730 - k.length)]
  simp only [Unique, insLeaf]
  rw [if_neg (by omega : ¬ 32767 < 32730 - k.length)]
  simp only [Librarian]


theorem insLeaf_FindSlot (k v : List Nat) (hk : k.length ≤ 255) (hkb : ∀ b ∈ k, b < 256) :
    (insLeaf k v).FindSlot k = 1 := by
  unfold Page.FindSlot
  rw [insLeaf_Right, insLeaf_Cnt]
  norm_num
  rw [show (2 : Nat) = 1 + 1 from rfl]
  unfold fsGo
  norm_num
  rw [insLeaf_Key_two k v hk hkb, KeyCmp_refl]
  norm_num
  rw [show (1 : Nat) = 0 + 1 from rfl]
  unfold fsGo
  norm_num
  rw [insLeaf_Key_one k v hk hkb, KeyCmp_refl]
  norm_num
  unfold fsGo
  norm_num

/-! ### `insertKey` on a fresh tree followed by `findKey` (claim C1) -/

/-- The state after the first `insertKey` into a fresh tree: the leaf page 2
is rewritten (first by `cleanPage`, a no-op here, then by `insertSlot`). -/
def insertedSt (k v : List Nat) : St := St.upd (St.upd initSt 2 leaf0) 2 (insLeaf k v)

theorem runOp_ins_true (fuel : Nat) (s : St) (k : List Nat) (lvl : Nat) (v : List Nat) :
    runOp (fuel + 1) s (.ins k lvl v true) = runOp fuel s (.insLoop k lvl v k Unique true) := by
  conv_lhs => unfold runOp
  simp only []
  rw [if_true]


theorem initSt_pds : initSt.pds = 32742 := rfl

theorem cleanPage_leaf0 (k : List Nat) :
    cleanPageF 32742 leaf0 (k.length % 256) 1 BtId = some (1, leaf0) := by
  unfold cleanPageF
  rw [if_pos (by
    rw [leaf0_Cnt, leaf0_Min]
    unfold SlotSize PageHeaderSize BtId
    omega)]

theorem runOp_insLoop_fit (fuel : Nat) (s : St) (key : List Nat) (lvl : Nat)
    (value ins : List Nat) (typ : Nat) (uniq : Bool)
    (pageNo slot0 : Nat) (e : BLTErr) (page : Page) (slot1 : Nat) (page1 page2 : Page)
    (hload : loadPageGo s key lvl false fuel RootPage 255 = (some (pageNo, slot0), e))
    (hp : s.pages pageNo = some page)
    (hlib : ¬ (page.Typ slot0 = Librarian ∧ KeyCmp (page.Key slot0) key = 0))
    (hmain : (uniq = true ∧ ((if page.Typ slot0 = Duplicate
        then ((page.Key slot0).length % 256 + 256 - BtId) % 256
        else (page.Key slot0).length % 256) ≠ ins.length % 256 ∨
        KeyCmp (page.Key slot0) ins ≠ 0)) ∨ ¬ (uniq = true))
    (hclean : cleanPageF s.pds page (ins.length % 256) slot0 BtId = some (slot1, page1))
    (hs1 : ¬ (slot1 = 0))
    (hins : insertSlotF page1 slot1 ins value typ = some page2) :
    runOp (fuel + 1) s (.insLoop key lvl value ins typ uniq) =
      some (BLTErr.Ok, St.upd (St.upd s pageNo page1) pageNo page2) := by
  conv_lhs => unfold runOp
  simp only []
  rw [hload]
  simp only []
  rw [hp]
  simp only []
  rw [if_neg hlib]
  rw [if_pos hmain]
  rw [hclean]
  simp only []
  rw [if_neg hs1]
  rw [hins]

theorem insertKey_fresh (k v : List Nat) (hk : k.length ≤ 255) (hne : k ≠ [255, 255]) :
    insertKeyF 20 initSt k 0 v true = some (BLTErr.Ok, insertedSt k v) := by
  have hload : loadPageGo initSt k 0 false 18 1 255 = (some (2, 1), BLTErr.Ok) := by
    have h := loadPage_step2 initSt k false 16 leaf0 initSt_pages_one initSt_pages_two
      leaf0_Lvl leaf0_Kill leaf0_Free (by rw [leaf0_FindSlot]; omega)
    rw [leaf0_FindSlot] at h
    norm_num at h ⊢
    exact h
  unfold insertKeyF
  rw [show (20 : Nat) = 19 + 1 from rfl]
  rw [runOp_ins_true]
  rw [show (19 : Nat) = 18 + 1 from rfl]
  rw [runOp_insLoop_fit 18 initSt k 0 v k Unique true 2 1 BLTErr.Ok leaf0 1 leaf0
    (insLeaf k v) hload initSt_pages_two
    (by
      intro hcon
      have h1 := hcon.1
      rw [leaf0_Typ_one] at h1
      exact absurd h1 (by decide))
    (Or.inl ⟨rfl, Or.inr (by
      rw [leaf0_Key_one]
      intro h0
      exact hne ((KeyCmp_eq_zero_iff _ _).mp h0).symm)⟩)
    (cleanPage_leaf0 k) (by decide) (insertSlot_leaf0 k v hk)]
  rfl

theorem insertedSt_pages_one (k v : List Nat) :
    (insertedSt k v).pages 1 = some root0 := rfl

theorem insertedSt_pages_two (k v : List Nat) :
    (insertedSt k v).pages 2 = some (insLeaf k v) := rfl

theorem findKeyLoop_found (s : St) (key : List Nat) (valMax fuel pageNo slot : Nat)
    (prev : List Nat) (page : Page)
    (hp : s.pages pageNo = some page)
    (hlib : page.Typ slot = Librarian)
    (hnd : ¬ (page.Typ (slot + 1) = Duplicate))
    (hfence : ¬ (slot + 1 = page.Cnt ∧ page.Right = 0))
    (hdead : page.Dead (slot + 1) = false)
    (hmatch : (page.Key (slot + 1)).length % 256 = key.length ∧
      KeyCmp ((page.Key (slot + 1)).take ((page.Key (slot + 1)).length % 256)) key = 0) :
    findKeyLoop s key valMax (fuel + 1) pageNo slot prev =
      (((if (page.Value (slot + 1)).length < valMax
          then (page.Value (slot + 1)).length else valMax) : Int),
        page.Key (slot + 1),
        (page.Value (slot + 1)).take
          (if (page.Value (slot + 1)).length < valMax
           then (page.Value (slot + 1)).length else valMax)) := by
  conv_lhs => unfold findKeyLoop
  rw [hp]
  simp only []
  rw [if_pos hlib]
  rw [if_neg hnd]
  rw [if_neg hfence]
  rw [hdead]
  simp only [Bool.false_eq_true, if_false]
  rw [if_pos hmatch]
  split <;> rfl

theorem findKeyF_eq (s : St) (key : List Nat) (vm f pageNo slot : Nat) (e : BLTErr)
    (h : loadPageGo s key 0 true f RootPage 255 = (some (pageNo, slot), e)) :
    findKeyF s key vm f = findKeyLoop s key vm f pageNo slot [] := by
  unfold findKeyF
  rw [h]

theorem findKey_inserted (k v : List Nat) (hk : k.length ≤ 255)
    (hkb : ∀ b ∈ k, b < 256) (hv : v.length = 6) (hvb : ∀ b ∈ v, b < 256) :
    findKeyF (insertedSt k v) k 6 20 = (6, k, v) := by
  have hkl : k.length % 256 = k.length := Nat.mod_eq_of_lt (by omega)
  have hload : loadPageGo (insertedSt k v) k 0 true (18 + 2) 1 255 =
      (some (2, 1), BLTErr.Ok) := by
    have h := loadPage_step2 (insertedSt k v) k true 18 (insLeaf k v)
      (insertedSt_pages_one k v) (insertedSt_pages_two k v)
      (insLeaf_Lvl k v) (insLeaf_Kill k v) (insLeaf_Free k v)
      (by rw [insLeaf_FindSlot k v hk hkb]; omega)
    rw [insLeaf_FindSlot k v hk hkb] at h
    exact h
  rw [findKeyF_eq (insertedSt k v) k 6 20 2 1 BLTErr.Ok hload]
  rw [show (20 : Nat) = 19 + 1 from rfl]
  rw [findKeyLoop_found (insertedSt k v) k 6 19 2 1 [] (insLeaf k v)
    (insertedSt_pages_two k v) (insLeaf_Typ_one k v)
    (by rw [insLeaf_Typ_two]; decide)
    (by
      intro hcon
      rw [insLeaf_Cnt] at hcon
      exact absurd hcon.1 (by decide))
    (insLeaf_Dead_two k v)
    ⟨by rw [insLeaf_Key_two k v hk hkb, hkl],
     by rw [insLeaf_Key_two k v hk hkb, hkl, List.take_length, KeyCmp_refl]⟩]
  rw [insLeaf_Value_two k v hk hv hvb, insLeaf_Key_two k v hk hkb]
  rw [if_neg (show ¬ v.length < 6 from by omega), if_neg (show ¬ v.length < 6 from by omega)]
  rw [List.take_of_length_le (show v.length ≤ 6 from by omega)]
  norm_num

/-- C1 (amended): insert-then-find round trip on a freshly created tree. For
every key `k` of length at most 255 whose bytes are below 256 and which is not
the stopper key `[255, 255]`, and every 6-byte value `v` with bytes below 256,
`insertKey k 0 v unique` returns `Ok`, and `findKey k 6` on the resulting tree
returns length 6, the key `k` and the value bytes `v`.  (The unamended claim,
which allows `k = [255, 255]`, is refuted by `insert_find_counterexample`.) -/
theorem insert_find_roundtrip (k v : List Nat) (hk : k.length ≤ 255)
    (hkb : ∀ b ∈ k, b < 256) (hne : k ≠ [255, 255]) (hv : v.length = 6)
    (hvb : ∀ b ∈ v, b < 256) :
    ∃ s', insertKeyF 20 initSt k 0 v true = some (BLTErr.Ok, s') ∧
      findKeyF s' k 6 20 = (6, k, v) :=
  ⟨insertedSt k v, insertKey_fresh k v hk hne, findKey_inserted k v hk hkb hv hvb⟩

theorem insert_find_roundtrip_witness :
    ∃ s', insertKeyF 20 initSt [1, 2, 3] 0 [9, 8, 7, 6, 5, 4] true =
        some (BLTErr.Ok, s') ∧
      findKeyF s' [1, 2, 3] 6 20 = (6, [1, 2, 3], [9, 8, 7, 6, 5, 4]) :=
  insert_find_roundtrip [1, 2, 3] [9, 8, 7, 6, 5, 4] (by decide) (by decide)
    (by decide) (by decide) (by decide)

/-! ### `findKey` misses: fresh tree and insert-then-delete (claim C2) -/

theorem FindSlot_single (p : Page) (key : List Nat) (hc : p.Cnt = 1) (hr : p.Right = 0) :
    p.FindSlot key = 1 := by
  unfold Page.FindSlot
  rw [hc, hr]
  rfl

theorem findKeyLoop_fence (s : St) (key : List Nat) (valMax fuel pageNo slot : Nat)
    (prev : List Nat) (page : Page)
    (hp : s.pages pageNo = some page)
    (hnl : ¬ page.Typ slot = Librarian)
    (hfence : slot = page.Cnt ∧ page.Right = 0) :
    findKeyLoop s key valMax (fuel + 1) pageNo slot prev = (-1, page.Key slot, []) := by
  conv_lhs => unfold findKeyLoop
  rw [hp]
  simp only []
  rw [if_neg hnl]
  rw [if_pos hfence]

theorem findKey_fresh (k : List Nat) (valMax : Nat) :
    (findKeyF initSt k valMax 20).1 = -1 := by
  have hload : loadPageGo initSt k 0 true (18 + 2) 1 255 = (some (2, 1), BLTErr.Ok) := by
    have h := loadPage_step2 initSt k true 18 leaf0 initSt_pages_one initSt_pages_two
      leaf0_Lvl leaf0_Kill leaf0_Free (by rw [leaf0_FindSlot]; omega)
    rw [leaf0_FindSlot] at h
    exact h
  rw [findKeyF_eq initSt k valMax 20 2 1 BLTErr.Ok hload]
  rw [show (20 : Nat) = 19 + 1 from rfl]
  rw [findKeyLoop_fence initSt k valMax 19 2 1 [] leaf0 initSt_pages_two
    (by rw [leaf0_Typ_one]; decide)
    ⟨leaf0_Cnt.symm, leaf0_Right⟩]

theorem runOp_del_found (fuel : Nat) (s : St) (key : List Nat)
    (pageNo slot0 : Nat) (e : BLTErr) (page page2 : Page)
    (hload : loadPageGo s key 0 false fuel RootPage 255 = (some (pageNo, slot0), e))
    (hp : s.pages pageNo = some page)
    (hlib : page.Typ slot0 = Librarian)
    (hkc : KeyCmp (page.Key (slot0 + 1)) key = 0)
    (hnd : page.Dead (slot0 + 1) = false)
    (hpage2 : page2 = { page with
        Act := sub32 page.Act 1
        Garbage := page.Garbage + (1 + (page.Key (slot0 + 1)).length)
          + (1 + (page.Value (slot0 + 1)).length)
        Data := wr8 page.Data (slotOff (slot0 + 1) + 5) 1 })
    (hact : ¬ (collapseSlots (page.Cnt + 1) page2).Act = 0) :
    runOp (fuel + 1) s (.del key 0) =
      some (BLTErr.Ok, St.upd { s with found := true } pageNo
        (collapseSlots (page.Cnt + 1) page2)) := by
  conv_lhs => unfold runOp
  simp only []
  rw [hload]
  simp only []
  rw [hp]
  simp only []
  rw [if_pos hlib]
  rw [if_pos (show KeyCmp (page.Key (slot0 + 1)) key = 0 ∧ ¬ page.Dead (slot0 + 1) = true
    from ⟨hkc, by rw [hnd]; decide⟩)]
  simp only [Page.SetDead]
  simp only [if_true]
  rw [← hpage2]
  rw [if_neg (show ¬ ((0 : Nat) < 0 ∧ 0 < (collapseSlots (page.Cnt + 1) page2).Act ∧
      slot0 + 1 = page.Cnt) from by intro hcon; exact absurd hcon.1 (by decide))]
  rw [if_neg (show ¬ ((1 : Nat) < 0 ∧ pageNo = RootPage ∧
      (collapseSlots (page.Cnt + 1) page2).Act = 1) from by
    intro hcon; exact absurd hcon.1 (by decide))]
  rw [if_neg hact]

def delPage2 (k v : List Nat) : Page :=
  { insLeaf k v with
    Act := sub32 (insLeaf k v).Act 1
    Garbage := (insLeaf k v).Garbage + (1 + ((insLeaf k v).Key 2).length)
      + (1 + ((insLeaf k v).Value 2).length)
    Data := wr8 (insLeaf k v).Data 11 1 }

theorem delPage2_Cnt (k v : List Nat) : (delPage2 k v).Cnt = 3 := rfl

theorem delPage2_Data (k v : List Nat) :
    (delPage2 k v).Data = wr8 (insLeaf k v).Data 11 1 := rfl

theorem collapseSlots_step (fuel : Nat) (p : Page) (c : Nat) (bytes : List Nat)
    (hc : p.Cnt = c + 2)
    (hd : p.Dead (c + 1) = true)
    (hb : rdBytes p.Data (slotOff (c + 2)) 6 = bytes) :
    collapseSlots (fuel + 1) p =
      collapseSlots fuel { p with
        Cnt := c + 1
        Data := wrBytes (wrBytes p.Data (slotOff (c + 1)) bytes) (slotOff (c + 2))
          [0, 0, 0, 0, 0, 0] } := by
  conv_lhs => unfold collapseSlots
  rw [hc]
  rw [show c + 2 - 1 = c + 1 from by omega]
  rw [if_pos (show 0 < c + 1 from by omega)]
  rw [hd]
  rw [if_pos rfl]
  rw [hb]
  simp only [Page.ClearSlot]
  rw [show c + 2 - 1 = c + 1 from by omega]

theorem collapseSlots_last (fuel : Nat) (p : Page) (h : p.Cnt = 1) :
    collapseSlots (fuel + 1) p = p := by
  conv_lhs => unfold collapseSlots
  rw [h]
  rw [if_neg (by decide)]

theorem insLeaf_d12_17 (k v : List Nat) (i : Nat) (h1 : 12 ≤ i) (h2 : i < 18) :
    (insLeaf k v).Data i =
      [226, 127, 0, 0, 0, 0].getD (i - 12) 0 := by
  show (wr8 (wr8 (wrBytes (wr8 (wr8 (wrBytes (wrBytes (wr8 (wr8
      (wrBytes (wrBytes leaf0.Data 32731 (v.length :: v)) (32730 - k.length)
        (k.length :: k))
      17 0) 16 0) 12 (le32 32738)) 0 (le32 (32730 - k.length))) 4 1) 5 1)
      6 (le32 (32730 - k.length))) 10 0) 11 0) i = _
  rw [wr8_ne (by omega), wr8_ne (by omega)]
  rw [wrBytes_ge (by simp only [le32, List.length_cons, List.length_nil]; omega)]
  rw [wr8_ne (by omega), wr8_ne (by omega)]
  rw [wrBytes_ge (by simp only [le32, List.length_cons, List.length_nil]; omega)]
  by_cases h16 : i < 16
  · rw [wrBytes_in (by omega) (by simp only [le32, List.length_cons, List.length_nil]; omega)]
    simp only [le32]
    norm_num
    interval_cases i <;> simp
  · rw [wrBytes_ge (by simp only [le32, List.length_cons, List.length_nil]; omega)]
    by_cases h17 : i = 17
    · subst h17
      rw [wr8_ne (by omega), wr8_self]
      simp
    · rw [show i = 16 from by omega, wr8_self]
      simp

theorem rd12 (k v : List Nat) :
    rdBytes (delPage2 k v).Data 12 6 = [226, 127, 0, 0, 0, 0] := by
  have h : ∀ j, j < 6 → (delPage2 k v).Data (12 + j) =
      (fun i => [226, 127, 0, 0, 0, 0].getD (i - 12) 0 : Mem) (12 + j) := by
    intro j hj
    rw [delPage2_Data, wr8_ne (by omega), insLeaf_d12_17 k v (12 + j) (by omega) (by omega)]
  rw [@rdBytes_congr _ (fun i => [226, 127, 0, 0, 0, 0].getD (i - 12) 0) 12 6 h]
  decide

theorem delPage2_Dead_two (k v : List Nat) : (delPage2 k v).Dead 2 = true := rfl

theorem insLeaf_d5 (k v : List Nat) : (insLeaf k v).Data 5 = 1 := by
  show (wr8 (wr8 (wrBytes (wr8 (wr8 (wrBytes (wrBytes (wr8 (wr8
      (wrBytes (wrBytes leaf0.Data 32731 (v.length :: v)) (32730 - k.length)
        (k.length :: k))
      17 0) 16 0) 12 (le32 32738)) 0 (le32 (32730 - k.length))) 4 1) 5 1)
      6 (le32 (32730 - k.length))) 10 0) 11 0) 5 = 1
  rw [wr8_ne (by omega), wr8_ne (by omega)]
  rw [wrBytes_lt (by omega)]
  rw [wr8_self]

def delLeaf (k v : List Nat) : Page :=
  { delPage2 k v with
    Cnt := 1
    Data := wrBytes (wrBytes (wrBytes (wrBytes (delPage2 k v).Data 6 [226, 127, 0, 0, 0, 0])
      12 [0, 0, 0, 0, 0, 0]) 0 [226, 127, 0, 0, 0, 0]) 6 [0, 0, 0, 0, 0, 0] }

theorem delLeaf_Act (k v : List Nat) : (delLeaf k v).Act = 1 := by
  show sub32 2 1 = 1
  rw [sub32_small (by omega) (by omega)]

theorem stepA_Dead (k v : List Nat) :
    Page.Dead { delPage2 k v with
      Cnt := 1 + 1
      Data := wrBytes (wrBytes (delPage2 k v).Data (slotOff (1 + 1)) [226, 127, 0, 0, 0, 0])
        (slotOff (1 + 2)) [0, 0, 0, 0, 0, 0] } (0 + 1) = true := by
  show ((wrBytes (wrBytes (delPage2 k v).Data (slotOff (1 + 1)) [226, 127, 0, 0, 0, 0])
        (slotOff (1 + 2)) [0, 0, 0, 0, 0, 0]) (slotOff (0 + 1) + 5) == 1) = true
  rw [wrBytes_lt (by decide), wrBytes_lt (by decide)]
  rw [delPage2_Data, wr8_ne (by decide)]
  rw [show slotOff (0 + 1) + 5 = 5 from rfl]
  rw [insLeaf_d5]
  rfl

theorem stepA_rd (k v : List Nat) :
    rdBytes (Page.Data { delPage2 k v with
      Cnt := 1 + 1
      Data := wrBytes (wrBytes (delPage2 k v).Data (slotOff (1 + 1)) [226, 127, 0, 0, 0, 0])
        (slotOff (1 + 2)) [0, 0, 0, 0, 0, 0] }) (slotOff (0 + 2)) 6 =
      [226, 127, 0, 0, 0, 0] := by
  show rdBytes (wrBytes (wrBytes (delPage2 k v).Data (slotOff (1 + 1)) [226, 127, 0, 0, 0, 0])
        (slotOff (1 + 2)) [0, 0, 0, 0, 0, 0]) (slotOff (0 + 2)) 6 = [226, 127, 0, 0, 0, 0]
  have h : ∀ j, j < 6 →
      (wrBytes (wrBytes (delPage2 k v).Data (slotOff (1 + 1)) [226, 127, 0, 0, 0, 0])
        (slotOff (1 + 2)) [0, 0, 0, 0, 0, 0]) (slotOff (0 + 2) + j) =
      (wrBytes (delPage2 k v).Data (slotOff (1 + 1)) [226, 127, 0, 0, 0, 0])
        (slotOff (0 + 2) + j) := by
    intro j hj
    exact wrBytes_lt (by simp only [slotOff]; omega)
  rw [rdBytes_congr h]
  exact (rdBytes_wrBytes_self _ _ _).trans (map_mod256_self (by decide))

theorem collapse_delPage2 (k v : List Nat) :
    collapseSlots ((insLeaf k v).Cnt + 1) (delPage2 k v) = delLeaf k v := by
  rw [insLeaf_Cnt]
  rw [collapseSlots_step 3 (delPage2 k v) 1 [226, 127, 0, 0, 0, 0] (delPage2_Cnt k v)
    (delPage2_Dead_two k v) (rd12 k v)]
  rw [collapseSlots_step 2 _ 0 [226, 127, 0, 0, 0, 0] rfl (stepA_Dead k v) (stepA_rd k v)]
  rw [collapseSlots_last 1 _ rfl]
  rfl

def deletedSt (k v : List Nat) : St :=
  St.upd { insertedSt k v with found := true } 2 (delLeaf k v)

theorem deleteKey_inserted (k v : List Nat) (hk : k.length ≤ 255)
    (hkb : ∀ b ∈ k, b < 256) :
    deleteKeyF 20 (insertedSt k v) k 0 = some (BLTErr.Ok, deletedSt k v) := by
  have hload : loadPageGo (insertedSt k v) k 0 false (17 + 2) 1 255 =
      (some (2, 1), BLTErr.Ok) := by
    have h := loadPage_step2 (insertedSt k v) k false 17 (insLeaf k v)
      (insertedSt_pages_one k v) (insertedSt_pages_two k v)
      (insLeaf_Lvl k v) (insLeaf_Kill k v) (insLeaf_Free k v)
      (by rw [insLeaf_FindSlot k v hk hkb]; omega)
    rw [insLeaf_FindSlot k v hk hkb] at h
    exact h
  unfold deleteKeyF
  rw [show (20 : Nat) = 19 + 1 from rfl]
  rw [runOp_del_found 19 (insertedSt k v) k 2 1 BLTErr.Ok (insLeaf k v) (delPage2 k v)
    hload (insertedSt_pages_two k v) (insLeaf_Typ_one k v)
    (show KeyCmp ((insLeaf k v).Key (1 + 1)) k = 0 from by
      rw [show (1 + 1 : Nat) = 2 from rfl, insLeaf_Key_two k v hk hkb, KeyCmp_refl])
    (insLeaf_Dead_two k v) rfl
    (by
      rw [collapse_delPage2 k v]
      rw [delLeaf_Act k v]
      decide)]
  rw [collapse_delPage2 k v]
  rfl

theorem deletedSt_pages_one (k v : List Nat) :
    (deletedSt k v).pages 1 = some root0 := rfl

theorem deletedSt_pages_two (k v : List Nat) :
    (deletedSt k v).pages 2 = some (delLeaf k v) := rfl

theorem delLeaf_Lvl (k v : List Nat) : (delLeaf k v).Lvl = 0 := rfl

theorem delLeaf_Kill (k v : List Nat) : (delLeaf k v).Kill = false := rfl

theorem delLeaf_Free (k v : List Nat) : (delLeaf k v).Free = false := rfl

theorem findKey_deleted (k v : List Nat) (valMax : Nat) :
    (findKeyF (deletedSt k v) k valMax 20).1 = -1 := by
  have hfs : (delLeaf k v).FindSlot k = 1 := FindSlot_single _ _ rfl rfl
  have hload : loadPageGo (deletedSt k v) k 0 true (18 + 2) 1 255 =
      (some (2, 1), BLTErr.Ok) := by
    have h := loadPage_step2 (deletedSt k v) k true 18 (delLeaf k v)
      (deletedSt_pages_one k v) (deletedSt_pages_two k v)
      (delLeaf_Lvl k v) (delLeaf_Kill k v) (delLeaf_Free k v) (by rw [hfs]; omega)
    rw [hfs] at h
    exact h
  rw [findKeyF_eq (deletedSt k v) k valMax 20 2 1 BLTErr.Ok hload]
  rw [show (20 : Nat) = 19 + 1 from rfl]
  rw [findKeyLoop_fence (deletedSt k v) k valMax 19 2 1 [] (delLeaf k v)
    (deletedSt_pages_two k v)
    (by rw [show (delLeaf k v).Typ 1 = 0 from rfl]; decide) ⟨rfl, rfl⟩]

/-- C2: absence lookup. On a freshly created tree `findKey` returns -1 for
every key and every `valMax`; and when a key of length at most 255 (bytes
below 256, different from the stopper key) is inserted into the fresh tree
and then removed by `deleteKey`, `findKey` on the resulting tree returns -1
again. -/
theorem absent_find (k v : List Nat) (valMax : Nat) (hk : k.length ≤ 255)
    (hkb : ∀ b ∈ k, b < 256) (hne : k ≠ [255, 255]) :
    (findKeyF initSt k valMax 20).1 = -1 ∧
    (∀ s1 s2, insertKeyF 20 initSt k 0 v true = some (BLTErr.Ok, s1) →
      deleteKeyF 20 s1 k 0 = some (BLTErr.Ok, s2) →
      (findKeyF s2 k valMax 20).1 = -1) := by
  refine ⟨findKey_fresh k valMax, ?_⟩
  intro s1 s2 h1 h2
  rw [insertKey_fresh k v hk hne] at h1
  have hs1 : insertedSt k v = s1 := congrArg Prod.snd (Option.some.inj h1)
  subst hs1
  rw [deleteKey_inserted k v hk hkb] at h2
  have hs2 : deletedSt k v = s2 := congrArg Prod.snd (Option.some.inj h2)
  subst hs2
  exact findKey_deleted k v valMax

theorem absent_find_witness :
    ((findKeyF initSt [1, 2, 3] 6 20).1 = -1 ∧
    (∀ s1 s2, insertKeyF 20 initSt [1, 2, 3] 0 [9, 8, 7, 6, 5, 4] true =
        some (BLTErr.Ok, s1) →
      deleteKeyF 20 s1 [1, 2, 3] 0 = some (BLTErr.Ok, s2) →
      (findKeyF s2 [1, 2, 3] 6 20).1 = -1)) :=
  absent_find [1, 2, 3] [9, 8, 7, 6, 5, 4] 6 (by decide) (by decide) (by decide)

/-! ### `deleteKey` on an absent key (claim C3) -/

theorem runOp_del_missing (fuel : Nat) (s : St) (key : List Nat) (lvl : Nat)
    (pageNo slot0 : Nat) (e : BLTErr) (page : Page)
    (hload : loadPageGo s key lvl false fuel RootPage 255 = (some (pageNo, slot0), e))
    (hp : s.pages pageNo = some page)
    (hmiss : ¬ (KeyCmp (page.Key (if page.Typ slot0 = Librarian then slot0 + 1 else slot0))
        key = 0 ∧
      ¬ page.Dead (if page.Typ slot0 = Librarian then slot0 + 1 else slot0) = true))
    (hroot : ¬ (1 < lvl ∧ pageNo = RootPage ∧ page.Act = 1))
    (hact : ¬ page.Act = 0) :
    runOp (fuel + 1) s (.del key lvl) = some (BLTErr.Ok, { s with found := false }) := by
  conv_lhs => unfold runOp
  simp only []
  rw [hload]
  simp only []
  rw [hp]
  simp only []
  rw [if_neg hmiss]
  rw [if_neg hroot]
  rw [if_neg hact]

/-- C3: silent no-op on absent delete. Whenever `loadPage` resolves the key to
a slot whose (librarian-adjusted) key differs from the searched key or is
already dead, and the root-collapse and empty-page conditions do not hold,
`deleteKey` returns `Ok` -- never a not-found error -- and leaves every page of
the tree unchanged. -/
theorem deleteKey_absent (fuel : Nat) (s : St) (key : List Nat) (lvl : Nat)
    (pageNo slot0 : Nat) (e : BLTErr) (page : Page)
    (hload : loadPageGo s key lvl false fuel RootPage 255 = (some (pageNo, slot0), e))
    (hp : s.pages pageNo = some page)
    (hmiss : ¬ (KeyCmp (page.Key (if page.Typ slot0 = Librarian then slot0 + 1 else slot0))
        key = 0 ∧
      ¬ page.Dead (if page.Typ slot0 = Librarian then slot0 + 1 else slot0) = true))
    (hroot : ¬ (1 < lvl ∧ pageNo = RootPage ∧ page.Act = 1))
    (hact : ¬ page.Act = 0) :
    ∃ s', deleteKeyF (fuel + 1) s key lvl = some (BLTErr.Ok, s') ∧
      s'.pages = s.pages := by
  refine ⟨{ s with found := false }, ?_, rfl⟩
  unfold deleteKeyF
  exact runOp_del_missing fuel s key lvl pageNo slot0 e page hload hp hmiss hroot hact

theorem deleteKey_absent_witness :
    ∃ s', deleteKeyF 20 initSt [1] 0 = some (BLTErr.Ok, s') ∧
      s'.pages = initSt.pages :=
  deleteKey_absent 19 initSt [1] 0 2 1 BLTErr.Ok leaf0 (by decide) initSt_pages_two
    (by decide) (by decide) (by decide)

/-! ### The slot-0 error branch of `insertKey` (claim C5) -/

def noPagesSt : St := { initSt with pages := fun _ => none }

/-- C5: the slot-0 error mapping of `insertKey` is inverted and reads the
wrong error field. When `LoadPage` fails (slot 0) with `Read` recorded as the
manager error and the tree error is still `Ok`, `insertKey` returns `Ok`
instead of the claimed `Overflow`; when a tree error (`Struct`) is already
recorded, `insertKey` overwrites it and returns `Overflow` instead of
propagating the recorded error. -/
theorem insertKey_slot0_error_mapping :
    LoadPage noPagesSt [1] 0 false 19 = (none, BLTErr.Read) ∧
    noPagesSt.treeErr = BLTErr.Ok ∧
    insertKeyF 21 noPagesSt [1] 0 [0, 0, 0, 0, 0, 0] true =
      some (BLTErr.Ok, { noPagesSt with mgrErr := BLTErr.Read }) ∧
    insertKeyF 21 { noPagesSt with treeErr := BLTErr.Struct } [1] 0 [0, 0, 0, 0, 0, 0]
        true =
      some (BLTErr.Overflow,
        { noPagesSt with mgrErr := BLTErr.Read, treeErr := BLTErr.Overflow }) :=
  ⟨by decide, rfl, rfl, rfl⟩

/-! ### The sortedness invariant after an insert (claim C6) -/

set_option maxHeartbeats 2000000 in
theorem cleanPageLoop_inv (frame : Page) (slotArg maxCnt : Nat) :
    ∀ fuel cnt idx nxt newSlot page pg idx' nxt' ns,
      cleanPageLoop frame slotArg maxCnt fuel cnt idx nxt newSlot page =
        some (pg, idx', nxt', ns) →
      pg.Garbage = page.Garbage ∧ (0 < newSlot → 0 < ns) := by
  intro fuel
  induction fuel with
  | zero =>
    intro cnt idx nxt newSlot page pg idx' nxt' ns h
    exact absurd h (by simp [cleanPageLoop])
  | succ n ih =>
    intro cnt idx nxt newSlot page pg idx' nxt' ns h
    unfold cleanPageLoop at h
    simp only [Page.SetKeyOffset] at h
    repeat' first
      | (split at h)
      | (simp only [] at h)
    all_goals
      repeat' first
        | omega
        | (exact Option.noConfusion h)
        | (simp only [Option.some.injEq, Prod.mk.injEq] at h
           obtain ⟨rfl, rfl, rfl, rfl⟩ := h
           exact ⟨rfl, id⟩)
        | (have hrec := ih _ _ _ _ _ _ _ _ _ h
           refine ⟨hrec.1.trans rfl, fun h0 => hrec.2 (by omega)⟩)
        | (rename_i heq
           first
             | (exact Option.noConfusion heq)
             | (obtain rfl := Option.some.inj heq)
             | (split at heq))
        | (rename_i heq _
           first
             | (exact Option.noConfusion heq)
             | (obtain rfl := Option.some.inj heq)
             | (split at heq))
        | (rename_i heq _ _
           first
             | (exact Option.noConfusion heq)
             | (obtain rfl := Option.some.inj heq)
             | (split at heq))
        | (rename_i heq _ _ _
           first
             | (exact Option.noConfusion heq)
             | (obtain rfl := Option.some.inj heq)
             | (split at heq))
        | (rename_i heq _ _ _ _
           first
             | (exact Option.noConfusion heq)
             | (obtain rfl := Option.some.inj heq)
             | (split at heq))
        | (rename_i heq _ _ _ _ _
           first
             | (exact Option.noConfusion heq)
             | (obtain rfl := Option.some.inj heq)
             | (split at heq))
        | (rename_i heq _ _ _ _ _ _
           first
             | (exact Option.noConfusion heq)
             | (obtain rfl := Option.some.inj heq)
             | (split at heq))
        | (rename_i heq
           clear heq)

/-- C7: the `cleanPage` decision. For every page with at least one slot,
requested slot, key length and value length: (i) when the slot array and heap
fit the new entry with two extra slots (`Min` at least
`(Cnt+2)*SlotSize + PageHeaderSize + keyLen+1 + valLen+1`), the slot is
returned unchanged with the page untouched; (ii) otherwise, when
`Garbage < pageDataSize/5`, 0 is returned (forcing a split) with the page
untouched; (iii) otherwise the page is compacted -- the result has
`Garbage = 0` -- and the returned slot is 0 exactly when the space test still
fails on the compacted page. -/
theorem cleanPage_decision (pds : Nat) (p : Page) (keyLen slot valLen : Nat)
    (hCnt : 0 < p.Cnt) :
    (((p.Cnt + 2) * SlotSize + PageHeaderSize + keyLen + 1 + valLen + 1 ≤ p.Min) →
      cleanPageF pds p keyLen slot valLen = some (slot, p)) ∧
    ((¬ ((p.Cnt + 2) * SlotSize + PageHeaderSize + keyLen + 1 + valLen + 1 ≤ p.Min)) →
      p.Garbage < pds / 5 →
      cleanPageF pds p keyLen slot valLen = some (0, p)) ∧
    ((¬ ((p.Cnt + 2) * SlotSize + PageHeaderSize + keyLen + 1 + valLen + 1 ≤ p.Min)) →
      ¬ (p.Garbage < pds / 5) →
      ∀ q pg, cleanPageF pds p keyLen slot valLen = some (q, pg) →
        pg.Garbage = 0 ∧
        (q = 0 ↔ ¬ ((pg.Cnt + 2) * SlotSize + PageHeaderSize + keyLen + 1 + valLen + 1
          ≤ pg.Min))) := by
  refine ⟨?_, ?_, ?_⟩
  · intro hfit
    unfold cleanPageF
    rw [if_pos hfit]
  · intro hfit hg
    unfold cleanPageF
    rw [if_neg hfit, if_pos hg]
  · intro hfit hg q pg h
    unfold cleanPageF at h
    rw [if_neg hfit, if_neg hg] at h
    simp only [] at h
    revert h
    cases hloop : cleanPageLoop p slot p.Cnt (p.Cnt + 1) 0 0 pds p.Cnt
      { p with Data := fun _ => 0, Garbage := 0, Act := 0 } with
    | none => intro h; exact Option.noConfusion h
    | some r =>
      obtain ⟨page, idx, nxt, ns⟩ := r
      have hinv := cleanPageLoop_inv p slot p.Cnt (p.Cnt + 1) 0 0 pds p.Cnt
        { p with Data := fun _ => 0, Garbage := 0, Act := 0 } page idx nxt ns hloop
      intro h
      simp only [] at h
      split at h
      · simp only [Option.some.injEq, Prod.mk.injEq] at h
        obtain ⟨rfl, rfl⟩ := h
        refine ⟨hinv.1, ?_⟩
        constructor
        · intro h0
          exact absurd h0 (by have := hinv.2 hCnt; omega)
        · intro hc
          exact absurd (by assumption) hc
      · simp only [Option.some.injEq, Prod.mk.injEq] at h
        obtain ⟨rfl, rfl⟩ := h
        refine ⟨hinv.1, ?_⟩
        simp only [true_iff]
        assumption

theorem cleanPage_decision_witness :
    (((leaf0.Cnt + 2) * SlotSize + PageHeaderSize + 3 + 1 + 6 + 1 ≤ leaf0.Min) →
      cleanPageF 32742 leaf0 3 1 6 = some (1, leaf0)) ∧
    ((¬ ((leaf0.Cnt + 2) * SlotSize + PageHeaderSize + 3 + 1 + 6 + 1 ≤ leaf0.Min)) →
      leaf0.Garbage < 32742 / 5 →
      cleanPageF 32742 leaf0 3 1 6 = some (0, leaf0)) ∧
    ((¬ ((leaf0.Cnt + 2) * SlotSize + PageHeaderSize + 3 + 1 + 6 + 1 ≤ leaf0.Min)) →
      ¬ (leaf0.Garbage < 32742 / 5) →
      ∀ q pg, cleanPageF 32742 leaf0 3 1 6 = some (q, pg) →
        pg.Garbage = 0 ∧
        (q = 0 ↔ ¬ ((pg.Cnt + 2) * SlotSize + PageHeaderSize + 3 + 1 + 6 + 1
          ≤ pg.Min))) :=
  cleanPage_decision 32742 leaf0 3 1 6 (by decide)

/-! ### The `SetKeyOffset` panic bound (claim C10) -/

end BLink
